import Mathlib

/-!
Verification of the bok-reader EPUB reader component.

This file gives a shallow embedding of the parts of the code base that the
claims concern and proves theorems about them:

* src/components/BokReader/syncUtils.ts — progress clamping, highlight
  serialization and order-independent equality, the FNV-1a based sync-state
  fingerprint, progress-conflict detection, and the pending-event outbox.
* src/components/BokReader/BokReader.tsx — remote sync-state ingestion
  (processExternalSyncState), sync-state application
  (applySyncStateToReader) and the emission handlers.
* src/hooks/useEpub.tsx — book identity derivation (createBookId), path
  resolution (resolvePath), image source resolution, and the CSS sanitizer
  (stripUnneededRules).
* src/components/Book.tsx — page navigation (goToPage / changePage) and the
  highlight-creation guard (handleHighlightColor).

JavaScript numbers are modelled as an inductive type JSNum with a rational
payload for finite values; 32-bit integer operations are modelled on Nat
with explicit reduction modulo 2 ^ 32.  JavaScript strings are modelled as
Lean strings (code points coincide with UTF-16 code units on the basic
multilingual plane, which covers every string manipulated here).
-/

/-- Size of the unsigned 32-bit integer range; JavaScript bitwise results are
reduced into this range by the zero-fill right shift used in the sources. -/
def U32 : Nat := 4294967296

/-- A JavaScript number: either a finite value (modelled as a rational) or one
of the non-finite values NaN, +Infinity, -Infinity. -/
inductive JSNum where
  | finite (q : ℚ)
  | nan
  | posInf
  | negInf
deriving DecidableEq, Repr

/-- Math.min on finite JavaScript numbers (both arguments finite, no NaN). -/
def jsMin (a b : ℚ) : ℚ := if a ≤ b then a else b

/-- Math.max on finite JavaScript numbers (both arguments finite, no NaN). -/
def jsMax (a b : ℚ) : ℚ := if a ≤ b then b else a

/-- Exact rational subtraction expressed on numerators and denominators.
This equals ordinary subtraction on ℚ (lemma ratSub_eq below); it is written
with mkRat so that concrete instances reduce by evaluation. -/
def ratSub (a b : ℚ) : ℚ := mkRat (a.num * (b.den : ℤ) - b.num * (a.den : ℤ)) (a.den * b.den)

/-- Absolute difference of two rationals, written without negation so that it
evaluates; used to model Math.abs(a - b). -/
def absDiff (a b : ℚ) : ℚ := if a ≤ b then ratSub b a else ratSub a b

theorem ratSub_eq (a b : ℚ) : ratSub a b = a - b := by
  unfold ratSub
  rw [Rat.mkRat_eq_div]
  have had : (a.den : ℚ) ≠ 0 := by exact_mod_cast a.den_nz
  have hbd : (b.den : ℚ) ≠ 0 := by exact_mod_cast b.den_nz
  conv_rhs => rw [← Rat.num_div_den a, ← Rat.num_div_den b]
  field_simp
  ring

theorem absDiff_eq (a b : ℚ) : absDiff a b = |a - b| := by
  unfold absDiff
  rw [ratSub_eq, ratSub_eq]
  rcases le_or_lt a b with h | h
  · simp [h, abs_of_nonpos (sub_nonpos.mpr h)]
  · simp [not_le.mpr h, abs_of_pos (sub_pos.mpr h)]

/-! ### syncUtils.ts: progress clamping and conflict detection -/

/-- PROGRESS_EPSILON from syncUtils.ts (0.0001). -/
def PROGRESS_EPSILON : ℚ := mkRat 1 10000

theorem PROGRESS_EPSILON_eq : PROGRESS_EPSILON = 1 / 10000 := by
  unfold PROGRESS_EPSILON
  rw [Rat.mkRat_eq_div]
  norm_num

/-- clampProgress from syncUtils.ts: non-finite inputs map to 0, finite inputs
are clamped into [0, 1] via Math.max(0, Math.min(1, progress)). -/
def clampProgress (progress : JSNum) : ℚ :=
  match progress with
  | .finite q => jsMax 0 (jsMin 1 q)
  | _ => 0

/-- hasProgressConflict from syncUtils.ts: no conflict when the remote value is
not a number; otherwise clamp both sides, treat a locally (near-)zero value as
non-conflicting, and flag a conflict when the clamped values differ by more
than PROGRESS_EPSILON. -/
def hasProgressConflict (localProgress : JSNum) (remoteProgress : Option JSNum) : Bool :=
  match remoteProgress with
  | none => false
  | some remote =>
    let normalizedLocal := clampProgress localProgress
    let normalizedRemote := clampProgress remote
    if normalizedLocal ≤ PROGRESS_EPSILON then false
    else decide (PROGRESS_EPSILON < absDiff normalizedLocal normalizedRemote)

/-! ### Rendering numbers to strings

JavaScript renders integers with template literals (base 10) and with
Number.prototype.toString(16) (base 16, lowercase).  Both are the standard
minimal-length positional representation; they are modelled by renderBase,
written with explicit fuel so that every instance reduces by evaluation. -/

/-- Digit characters 0-9 then a-f, exactly as JavaScript toString(16) uses. -/
def digitChar (d : Nat) : Char :=
  if d = 0 then '0' else if d = 1 then '1' else if d = 2 then '2'
  else if d = 3 then '3' else if d = 4 then '4' else if d = 5 then '5'
  else if d = 6 then '6' else if d = 7 then '7' else if d = 8 then '8'
  else if d = 9 then '9' else if d = 10 then 'a' else if d = 11 then 'b'
  else if d = 12 then 'c' else if d = 13 then 'd' else if d = 14 then 'e'
  else if d = 15 then 'f' else '?'

/-- Little-endian base-b digits of n, with fuel for structural recursion.
With fuel ≥ n this is the full digit expansion (empty for n = 0). -/
def baseDigitsAux (b : Nat) : Nat → Nat → List Nat
  | 0, _ => []
  | fuel + 1, n => if n = 0 then [] else n % b :: baseDigitsAux b fuel (n / b)

/-- Value of a little-endian digit list in base b. -/
def fromDigits (b : Nat) : List Nat → Nat
  | [] => 0
  | d :: ds => d + b * fromDigits b ds

/-- Minimal-length base-b rendering of a natural number, as produced by the
JavaScript template literal (b = 10) and toString(16) (b = 16). -/
def renderBase (b n : Nat) : String :=
  if n = 0 then "0" else String.mk (((baseDigitsAux b n n).map digitChar).reverse)

/-- Decimal rendering of a natural number, as a JavaScript template literal. -/
def decStr (n : Nat) : String := renderBase 10 n

/-- Lowercase hexadecimal rendering, as JavaScript toString(16). -/
def hexStr (n : Nat) : String := renderBase 16 n

/-- padStart(len, c) from JavaScript: left-pad with c up to length len. -/
def padStart (len : Nat) (c : Char) (s : String) : String :=
  String.mk (List.replicate (len - s.length) c) ++ s

theorem fromDigits_baseDigitsAux (b : Nat) (hb : 2 ≤ b) :
    ∀ fuel n, n ≤ fuel → fromDigits b (baseDigitsAux b fuel n) = n := by
  intro fuel
  induction fuel with
  | zero => intro n hn; interval_cases n; simp [baseDigitsAux, fromDigits]
  | succ f ih =>
    intro n hn
    by_cases h0 : n = 0
    · simp [baseDigitsAux, h0, fromDigits]
    · have hdiv : n / b ≤ f := by
        have h1 : n / b < n := Nat.div_lt_self (Nat.pos_of_ne_zero h0) (by omega)
        omega
      simp only [baseDigitsAux, h0, if_false, fromDigits, ih (n / b) hdiv]
      exact Nat.mod_add_div n b

theorem baseDigitsAux_lt (b : Nat) (hb : 2 ≤ b) :
    ∀ fuel n d, d ∈ baseDigitsAux b fuel n → d < b := by
  intro fuel
  induction fuel with
  | zero => intro n d hd; simp [baseDigitsAux] at hd
  | succ f ih =>
    intro n d hd
    by_cases h0 : n = 0
    · simp [baseDigitsAux, h0] at hd
    · simp only [baseDigitsAux, h0, if_false, List.mem_cons] at hd
      rcases hd with h | h
      · subst h; exact Nat.mod_lt _ (by omega)
      · exact ih _ _ h

theorem digitChar_inj : ∀ d₁ < 16, ∀ d₂ < 16, digitChar d₁ = digitChar d₂ → d₁ = d₂ := by
  decide

theorem map_digitChar_inj (l1 : List Nat) :
    ∀ l2, (∀ d ∈ l1, d < 16) → (∀ d ∈ l2, d < 16) →
    l1.map digitChar = l2.map digitChar → l1 = l2 := by
  induction l1 with
  | nil =>
    intro l2 _ _ h
    cases l2 with
    | nil => rfl
    | cons e es => simp at h
  | cons d ds ih =>
    intro l2 h1 h2 h
    cases l2 with
    | nil => simp at h
    | cons e es =>
      simp only [List.map_cons, List.cons.injEq] at h
      have hd := digitChar_inj d (h1 d (List.mem_cons_self _ _)) e (h2 e (List.mem_cons_self _ _)) h.1
      have ht := ih es (fun x hx => h1 x (List.mem_cons_of_mem _ hx))
        (fun x hx => h2 x (List.mem_cons_of_mem _ hx)) h.2
      rw [hd, ht]

theorem renderBase_inj (b : Nat) (hb2 : 2 ≤ b) (hb16 : b ≤ 16) :
    ∀ n m, renderBase b n = renderBase b m → n = m := by
  have hchars : ∀ k, (renderBase b k).data =
      (if k = 0 then [0] else (baseDigitsAux b k k).reverse).map digitChar := by
    intro k
    unfold renderBase
    by_cases hk : k = 0
    · simp [hk, digitChar]
    · simp [hk, List.map_reverse]
  have hbound : ∀ k, ∀ d ∈ (if k = 0 then [0] else (baseDigitsAux b k k).reverse), d < 16 := by
    intro k d hd
    by_cases hk : k = 0
    · simp [hk] at hd; omega
    · simp only [hk, if_false, List.mem_reverse] at hd
      exact lt_of_lt_of_le (baseDigitsAux_lt b hb2 _ _ _ hd) hb16
  have hval : ∀ k, fromDigits b (if k = 0 then [0] else (baseDigitsAux b k k).reverse).reverse = k := by
    intro k
    by_cases hk : k = 0
    · simp [hk, fromDigits]
    · simp only [hk, if_false, List.reverse_reverse]
      exact fromDigits_baseDigitsAux b hb2 k k le_rfl
  intro n m h
  have hdata := congrArg String.data h
  rw [hchars n, hchars m] at hdata
  have hlists := map_digitChar_inj _ _ (hbound n) (hbound m) hdata
  have := congrArg (fun l => fromDigits b l.reverse) hlists
  simpa only [hval n, hval m] using this

/-! ### Book.tsx: highlights and their serialization (syncUtils.ts) -/

/-- HighlightColor from Book.tsx: a union of four string literals. -/
inductive HighlightColor where
  | yellow
  | red
  | blue
  | purple
deriving DecidableEq, Repr

/-- The string carried by each HighlightColor literal. -/
def HighlightColor.str : HighlightColor → String
  | .yellow => "yellow"
  | .red => "red"
  | .blue => "blue"
  | .purple => "purple"

theorem HighlightColor.str_inj :
    ∀ c₁ c₂ : HighlightColor, c₁.str = c₂.str → c₁ = c₂ := by
  intro c₁ c₂ h
  revert h
  cases c₁ <;> cases c₂ <;> intro h <;> first
    | rfl
    | exact absurd h (by decide)

/-- Highlight from Book.tsx.  start and «end» are character offsets into the
chapter's concatenated text-node content (natural numbers); text is the
optional cached excerpt. -/
structure Highlight where
  id : String
  chapterId : String
  start : Nat
  «end» : Nat
  color : HighlightColor
  text : Option String
deriving DecidableEq, Repr

/-- cloneHighlights from syncUtils.ts: copies each highlight object.  Lean
values are immutable, so a field-for-field copy is the identity. -/
def cloneHighlights (highlights : List Highlight) : List Highlight := highlights

/-- serializeHighlight from syncUtils.ts: a colon-joined rendering of all six
fields, with a missing text rendered as the empty string. -/
def serializeHighlight (h : Highlight) : String :=
  h.id ++ ":" ++ h.chapterId ++ ":" ++ decStr h.start ++ ":" ++ decStr h.«end»
    ++ ":" ++ h.color.str ++ ":" ++ (h.text.getD "")

/-- areHighlightsEqual from syncUtils.ts: compares lengths, then the number of
distinct serialized keys, then, for every distinct key of the left list, the
multiplicity on both sides (a key absent on the right reads as undefined and
therefore differs from any count). -/
def areHighlightsEqual (left right : List Highlight) : Bool :=
  if left.length ≠ right.length then false
  else
    let ls := left.map serializeHighlight
    let rs := right.map serializeHighlight
    if ls.dedup.length ≠ rs.dedup.length then false
    else ls.dedup.all (fun key => rs.count key == ls.count key)

/-- One step of the FNV-1a loop in hashString32: xor in a code unit, then a
32-bit integer multiply by the FNV prime (Math.imul keeps the low 32 bits). -/
def hashStep (h c : Nat) : Nat := ((h ^^^ c) * 16777619) % U32

/-- hashString32 from syncUtils.ts: FNV-1a over the UTF-16 code units of the
input, returned as an unsigned 32-bit value. -/
def hashString32 (input : String) : Nat :=
  input.data.foldl (fun h c => hashStep h c.toNat) 2166136261

/-- Running 32-bit sum accumulator of getHighlightsSignature:
sum = (sum + hashed) >>> 0 at each step. -/
def sum32 (hs : List Nat) : Nat := hs.foldl (fun s h => (s + h) % U32) 0

/-- Running xor accumulator of getHighlightsSignature: xor of 32-bit values
stays within 32 bits, so the >>> 0 is the identity. -/
def xor32 (hs : List Nat) : Nat := hs.foldl (fun x h => x ^^^ h) 0

/-- Running mixed accumulator of getHighlightsSignature:
mix = (mix + Math.imul(hashed, 2654435761)) >>> 0 at each step. -/
def mix32 (hs : List Nat) : Nat := hs.foldl (fun m h => (m + h * 2654435761 % U32) % U32) 0

/-- getHighlightsSignature from syncUtils.ts: "none" for an absent list;
otherwise the length and the three order-independent 32-bit accumulators of
the per-highlight FNV-1a hashes, the latter three in lowercase hex. -/
def getHighlightsSignature (highlights : Option (List Highlight)) : String :=
  match highlights with
  | none => "none"
  | some hs =>
    let hashed := hs.map (fun h => hashString32 (serializeHighlight h))
    decStr hs.length ++ ":" ++ hexStr (sum32 hashed) ++ ":" ++ hexStr (xor32 hashed)
      ++ ":" ++ hexStr (mix32 hashed)

/-- toFixed(6) of a non-negative rational, as JavaScript renders clamped
progress values: round half away from zero to six decimals, then print with
exactly six fraction digits.  Written on the numerator and denominator so
that concrete instances reduce by evaluation. -/
def toFixed6 (q : ℚ) : String :=
  let scaled : Int := (2000000 * q.num + (q.den : Int)) / (2 * (q.den : Int))
  let n : Nat := scaled.toNat
  decStr (n / 1000000) ++ "." ++ padStart 6 '0' (decStr (n % 1000000))

/-- SyncState (BokReaderSyncState in BokReader.tsx / SyncStateFingerprintInput
in syncUtils.ts).  revision is already rendered to a string (the source
applies String() to a string-or-number union); a missing forceApply reads as
false under the Boolean coercion the source applies. -/
structure SyncState where
  bookId : String
  progress : Option JSNum := none
  highlights : Option (List Highlight) := none
  revision : Option String := none
  forceApply : Bool := false
deriving DecidableEq, Repr

/-- getSyncStateFingerprint from syncUtils.ts: pipe-joined rendering of the
book id, revision token, clamped progress at six decimals, the highlight
signature, and the forceApply flag. -/
def getSyncStateFingerprint (syncState : SyncState) : String :=
  let revision := match syncState.revision with
    | some r => r
    | none => "none"
  let progress := match syncState.progress with
    | some p => toFixed6 (clampProgress p)
    | none => "none"
  let highlightsSignature := getHighlightsSignature syncState.highlights
  let forceApply := if syncState.forceApply then "1" else "0"
  syncState.bookId ++ "|" ++ revision ++ "|" ++ progress ++ "|" ++ highlightsSignature
    ++ "|" ++ forceApply

/-! ### syncUtils.ts: the pending-event outbox

A JavaScript Map is modelled as an association list in insertion order:
set on an existing key updates the entry in place, set on a fresh key
appends, delete removes, and values() iterates in list order. -/

/-- An insertion-ordered map from strings, as a JavaScript Map. -/
abbrev MapList (α : Type) : Type := List (String × α)

/-- Map.prototype.set: update in place when the key exists, append otherwise. -/
def mapSet {α : Type} (m : MapList α) (k : String) (v : α) : MapList α :=
  if m.any (fun p => p.1 == k) then
    m.map (fun p => if p.1 == k then (k, v) else p)
  else m ++ [(k, v)]

/-- Map.prototype.delete. -/
def mapDelete {α : Type} (m : MapList α) (k : String) : MapList α :=
  m.filter (fun p => p.1 ≠ k)

/-- Array.from(map.values()). -/
def mapValues {α : Type} (m : MapList α) : List α := m.map (fun p => p.2)

/-- The fields shared by every pending sync event (PendingSyncEvent in
syncUtils.ts); the payload stands for the extra fields of the concrete
event type the generic functions are instantiated with. -/
structure PendingSyncEvent (α : Type) where
  mutationId : String
  emittedAt : Nat
  payload : α
deriving DecidableEq, Repr

/-- enqueuePendingSyncEvent from syncUtils.ts: keyed by mutationId. -/
def enqueuePendingSyncEvent {α : Type} (pendingEvents : MapList (PendingSyncEvent α))
    (event : PendingSyncEvent α) : MapList (PendingSyncEvent α) :=
  mapSet pendingEvents event.mutationId event

/-- Insertion of an event into a list sorted by emittedAt, placing it after
strictly smaller timestamps and before equal ones; folding the input right to
left with this insertion is a stable sort, which is what
Array.prototype.sort guarantees for the comparator (a, b) => a - b. -/
def insertByEmittedAt {α : Type} (e : PendingSyncEvent α) :
    List (PendingSyncEvent α) → List (PendingSyncEvent α)
  | [] => [e]
  | x :: xs =>
    if x.emittedAt < e.emittedAt then x :: insertByEmittedAt e xs
    else e :: x :: xs

/-- listPendingSyncEvents from syncUtils.ts: the map's values sorted by
emittedAt ascending (stable). -/
def listPendingSyncEvents {α : Type} (pendingEvents : MapList (PendingSyncEvent α)) :
    List (PendingSyncEvent α) :=
  (mapValues pendingEvents).foldr insertByEmittedAt []

/-- acknowledgePendingSyncEvents from syncUtils.ts: delete each acknowledged
mutation id (a single id is wrapped into a one-element array by the source). -/
def acknowledgePendingSyncEvents {α : Type} (pendingEvents : MapList (PendingSyncEvent α))
    (mutationIds : List String) : MapList (PendingSyncEvent α) :=
  mutationIds.foldl (fun acc mutationId => mapDelete acc mutationId) pendingEvents

/-! ### BokReader.tsx: reader state, emission handlers and sync ingestion

The React component state is collected into one record.  Refs and state hooks
become fields; the host-facing callbacks (onSyncEvent, onConflictDetected)
become return values; Date.now() and the generated mutation id become explicit
parameters.  withSyncEmissionSuppressed increments the suppression counter
around the work it wraps, and the progress handler that the wrapped work
triggers observes the incremented counter (the source defers the decrement
with a zero-delay timer precisely so that this holds). -/

/-- Payload of a BokReaderSyncEvent (the discriminated union minus the
outbox-relevant base fields). -/
inductive SyncEventData where
  | progressSet (progress : ℚ)
  | highlightAdd (highlight : Highlight)
  | highlightRemove (highlightId : String)
  | highlightUpdateColor (highlightId : String) (color : HighlightColor)
deriving DecidableEq, Repr

/-- A full BokReaderSyncEvent: the outbox base fields plus book id and data. -/
structure SyncEventBody where
  bookId : String
  data : SyncEventData
deriving DecidableEq, Repr

/-- The concrete event type stored in the outbox map. -/
abbrev BokSyncEvent := PendingSyncEvent SyncEventBody

/-- BokReaderSyncSnapshot from BokReader.tsx. -/
structure Snapshot where
  bookId : String
  progress : ℚ
  highlights : List Highlight
deriving DecidableEq, Repr

/-- BokReaderSyncConflict from BokReader.tsx; localSnap/remoteSnap stand for
the local/remote fields (local is a reserved word in Lean). -/
structure Conflict where
  bookId : String
  entities : List String
  detectedAt : Nat
  localSnap : Snapshot
  remoteSnap : Snapshot
  proposedSyncState : SyncState
deriving DecidableEq, Repr

/-- The BokReader component state: bookId and isLoading from useEpub,
readerReady for bookComponentRef.current being non-null, and one field per
ref or state hook the sync logic touches. -/
structure ReaderState where
  bookId : String
  isLoading : Bool
  readerReady : Bool
  progress : ℚ
  hasObservedProgress : Bool
  lastProgressSyncEvent : Option ℚ
  highlights : List Highlight
  pendingEvents : MapList BokSyncEvent
  processed : List String
  lastConflictFingerprint : String
  queuedSyncState : Option SyncState
  suppressSyncEmission : Nat
deriving DecidableEq, Repr

/-- emitSyncEvent from BokReader.tsx: enqueue into the outbox (the host
callback, if any, receives the same event and is not part of the state). -/
def emitSyncEvent (st : ReaderState) (event : BokSyncEvent) : ReaderState :=
  { st with pendingEvents := enqueuePendingSyncEvent st.pendingEvents event }

/-- getSyncSnapshot from BokReader.tsx: none without a book id, otherwise the
clamped progress and a copy of the highlight list. -/
def getSyncSnapshot (st : ReaderState) : Option Snapshot :=
  if st.bookId = "" then none
  else some ⟨st.bookId, clampProgress (.finite st.progress), cloneHighlights st.highlights⟩

/-- handleProgressChange from BokReader.tsx: clamp and store the progress;
the first observation only primes the dedup baseline; afterwards, emission is
skipped while loading, without a book, under the suppression guard, or when
the value moved by at most PROGRESS_EPSILON since the last emitted value. -/
def handleProgressChange (st : ReaderState) (progress : ℚ) (mid : String) (now : Nat) :
    ReaderState :=
  let normalizedProgress := clampProgress (.finite progress)
  let st1 := { st with progress := normalizedProgress }
  if ¬ st1.hasObservedProgress then
    { st1 with hasObservedProgress := true, lastProgressSyncEvent := some normalizedProgress }
  else if st1.isLoading ∨ st1.bookId = "" ∨ 0 < st1.suppressSyncEmission then st1
  else if (match st1.lastProgressSyncEvent with
      | some last => decide (absDiff last normalizedProgress ≤ PROGRESS_EPSILON)
      | none => false) then st1
  else
    emitSyncEvent { st1 with lastProgressSyncEvent := some normalizedProgress }
      ⟨mid, now, ⟨st1.bookId, .progressSet normalizedProgress⟩⟩

/-- handleAddHighlight from BokReader.tsx: append to the highlight list, then
emit unless there is no book id or emission is suppressed. -/
def handleAddHighlight (st : ReaderState) (highlight : Highlight) (mid : String) (now : Nat) :
    ReaderState :=
  let st1 := { st with highlights := st.highlights ++ [highlight] }
  if st1.bookId = "" ∨ 0 < st1.suppressSyncEmission then st1
  else
    emitSyncEvent st1 ⟨mid, now, ⟨st1.bookId, .highlightAdd highlight⟩⟩

/-- Result of applySyncStateToReader. -/
inductive SyncApplyResult where
  | applied
  | queued
  | rejected
deriving DecidableEq, Repr

/-- applySyncStateToReader from BokReader.tsx: reject foreign or empty book
ids; queue while the Book component is not mounted; otherwise, under the
suppression guard, clamp and apply the progress (the Book's progress callback
then runs with the guard active) and replace the highlight list when one is
present, and report the state as applied. -/
def applySyncStateToReader (st : ReaderState) (next : SyncState) (mid : String) (now : Nat) :
    ReaderState × SyncApplyResult :=
  if st.bookId = "" ∨ next.bookId ≠ st.bookId then (st, .rejected)
  else if ¬ st.readerReady then
    ({ st with queuedSyncState := some { next with
        highlights := next.highlights.map cloneHighlights } }, .queued)
  else
    let stS := { st with suppressSyncEmission := st.suppressSyncEmission + 1 }
    let st1 := match next.progress with
      | some p =>
        let normalizedProgress := clampProgress p
        handleProgressChange
          { stS with progress := normalizedProgress,
                     lastProgressSyncEvent := some normalizedProgress }
          normalizedProgress mid now
      | none => stS
    let st2 := match next.highlights with
      | some hs => { st1 with highlights := cloneHighlights hs }
      | none => st1
    ({ st2 with suppressSyncEmission := st2.suppressSyncEmission - 1 }, .applied)

/-- The conflict entity list computed by processExternalSyncState: progress
conflicts via hasProgressConflict on the raw incoming progress, highlight
conflicts only when an incoming list meets a non-empty local list, both
non-empty, and the order-independent comparison fails. -/
def conflictEntities (localSnap : Snapshot) (next : SyncState) : List String :=
  (if hasProgressConflict (.finite localSnap.progress) next.progress then ["progress"] else [])
    ++ (if next.highlights.isSome
          ∧ localSnap.highlights ≠ []
          ∧ (next.highlights.getD []) ≠ []
          ∧ areHighlightsEqual localSnap.highlights (next.highlights.getD []) = false
        then ["highlights"] else [])

/-- processExternalSyncState from BokReader.tsx.  Returns the new state and
the conflicts surfaced to the host (empty or a single element).  Ignores the
state when there is no book, the book id differs, the reader is loading, or
the fingerprint was already processed.  On an unforced conflict the callback
fires only when the fingerprint differs from the last conflict fingerprint,
which is then recorded; otherwise the state is applied and, unless rejected,
the fingerprint is recorded as processed and the conflict fingerprint is
cleared. -/
def processExternalSyncState (st : ReaderState) (next : SyncState) (mid : String) (now : Nat) :
    ReaderState × List Conflict :=
  if st.bookId = "" ∨ next.bookId ≠ st.bookId ∨ st.isLoading then (st, [])
  else
    let fingerprint := getSyncStateFingerprint next
    if fingerprint ∈ st.processed then (st, [])
    else
      match getSyncSnapshot st with
      | none => (st, [])
      | some localSnapshot =>
        let remoteProgress := match next.progress with
          | some p => clampProgress p
          | none => localSnapshot.progress
        let remoteHighlights := match next.highlights with
          | some hs => cloneHighlights hs
          | none => cloneHighlights localSnapshot.highlights
        let entities := conflictEntities localSnapshot next
        if entities ≠ [] ∧ ¬ next.forceApply then
          let fired :=
            if st.lastConflictFingerprint ≠ fingerprint then
              [⟨st.bookId, entities, now, localSnapshot,
                ⟨st.bookId, remoteProgress, remoteHighlights⟩, next⟩]
            else []
          ({ st with lastConflictFingerprint := fingerprint }, fired)
        else
          let (st1, applyResult) := applySyncStateToReader st next mid now
          if applyResult ≠ .rejected then
            ({ st1 with
                processed := if fingerprint ∈ st1.processed then st1.processed
                  else st1.processed ++ [fingerprint],
                lastConflictFingerprint := "" }, [])
          else (st1, [])

/-- Repeated delivery of external sync states, accumulating every conflict
surfaced to the host. -/
def processMany (st : ReaderState) (states : List SyncState) (mid : String) (now : Nat) :
    ReaderState × List Conflict :=
  states.foldl
    (fun acc next =>
      let (st1, fired) := processExternalSyncState acc.1 next mid now
      (st1, acc.2 ++ fired))
    (st, [])

/-! ### Book.tsx: page navigation and highlight creation -/

/-- goToPage from Book.tsx: floor the target at 0, then cap it at
pageCount - 1 whenever it is ≥ pageCount (note the order: with pageCount = 0
the floored value 0 still trips the second test and becomes -1).  The
returned value is what setCurrentPage stores; the scroll animation has no
effect on the page state. -/
def goToPage (pageCount targetPage : Int) : Int :=
  let safePage := if targetPage < 0 then 0 else targetPage
  if safePage ≥ pageCount then pageCount - 1 else safePage

/-- changePage from Book.tsx: the same clamping applied to prev + amount. -/
def changePage (pageCount prev amount : Int) : Int :=
  let newValue := prev + amount
  let newValue1 := if newValue < 0 then 0 else newValue
  if newValue1 ≥ pageCount then pageCount - 1 else newValue1

/-- The decision core of handleHighlightColor from Book.tsx.  The DOM-derived
inputs are parameters: hasRange for a stored selection range, sameChapter for
both endpoints lying in one chapter element, chapterId for that chapter's id,
and start/stop for the computed character offsets.  Every early return leaves
the highlight list untouched; only a selection with stop > start inside a
named chapter reaches onAddHighlight. -/
def handleHighlightColor (st : ReaderState) (hasRange sameChapter : Bool)
    (chapterId : String) (start stop : Nat) (color : HighlightColor)
    (text : Option String) (newId mid : String) (now : Nat) : ReaderState :=
  if ¬ hasRange then st
  else if ¬ sameChapter then st
  else if chapterId = "" then st
  else if stop ≤ start then st
  else
    handleAddHighlight st ⟨newId, chapterId, start, stop, color, text⟩ mid now

/-! ### useEpub.tsx: book identity -/

/-- Whitespace as matched by the JavaScript \s class (restricted to the ASCII
whitespace actually occurring in EPUB metadata). -/
def isWs (c : Char) : Bool := c = ' ' ∨ c = '\t' ∨ c = '\n' ∨ c = '\r'

/-- String.prototype.trim. -/
def jsTrim (s : String) : String :=
  String.mk (((s.data.dropWhile isWs).reverse.dropWhile isWs).reverse)

/-- String.prototype.toLowerCase, on the ASCII range. -/
def asciiLower (c : Char) : Char :=
  if 'A' ≤ c ∧ c ≤ 'Z' then Char.ofNat (c.toNat + 32) else c

/-- Collapse every maximal run of whitespace to a single space, as
replace(/\s+/g, " "). -/
def collapseWs : List Char → List Char
  | [] => []
  | c :: rest =>
    if isWs c then
      if (rest.head?.elim false isWs) then collapseWs rest
      else ' ' :: collapseWs rest
    else c :: collapseWs rest

/-- normalizeMetadataValue from useEpub.tsx: empty for a missing or empty
value, otherwise trimmed, lowercased, with whitespace runs collapsed. -/
def normalizeMetadataValue (value : Option String) : String :=
  match value with
  | none => ""
  | some s =>
    if s = "" then ""
    else String.mk (collapseWs ((jsTrim s).data.map asciiLower))

/-- The OPF metadata consulted by getCanonicalBookIdentity: the package
element's unique-identifier attribute, the dc:identifier elements in document
order as (id attribute, text content) pairs, and the text content of the
first title/creator/language/publisher element. -/
structure OpfMetadata where
  uniqueIdentifierId : Option String
  identifiers : List (Option String × Option String)
  title : Option String
  creator : Option String
  language : Option String
  publisher : Option String
deriving DecidableEq, Repr

/-- getCanonicalBookIdentity from useEpub.tsx: prefer the identifier whose id
attribute matches the package's unique-identifier, fall back to the first
identifier, then to a normalized title/creator/language/publisher tuple, and
finally to the constant "unknown-book". -/
def getCanonicalBookIdentity (opf : OpfMetadata) : String :=
  let uniqueIdentifierId := (opf.uniqueIdentifierId.map jsTrim).getD ""
  let fromUid :=
    if uniqueIdentifierId ≠ "" then
      normalizeMetadataValue
        ((opf.identifiers.find? (fun item => item.1 = some uniqueIdentifierId)).bind
          (fun item => item.2))
    else ""
  let identifier :=
    if fromUid = "" ∧ opf.identifiers ≠ [] then
      normalizeMetadataValue ((opf.identifiers.head?.map (fun item => item.2)).getD none)
    else fromUid
  if identifier ≠ "" then "id=" ++ identifier
  else
    let title := normalizeMetadataValue opf.title
    let creator := normalizeMetadataValue opf.creator
    let language := normalizeMetadataValue opf.language
    let publisher := normalizeMetadataValue opf.publisher
    let fallbackIdentity := "title=" ++ title ++ "|creator=" ++ creator
      ++ "|language=" ++ language ++ "|publisher=" ++ publisher
    if fallbackIdentity = "title=|creator=|language=|publisher=" then "unknown-book"
    else fallbackIdentity

/-- One step of the non-crypto fallback hash in hashToHex:
hash = ((hash << 5) + hash) ^ charCode on 32-bit integers, tracked here on
the unsigned bit pattern (shift, add and xor all agree modulo 2 ^ 32). -/
def djb2Step (h c : Nat) : Nat := ((h * 32) % U32 + h) % U32 ^^^ c

/-- hashToHex from useEpub.tsx, in the environment without Web Crypto: the
djb2-style fallback over the code units, then >>> 0 rendered as zero-padded
hex.  (With Web Crypto the function instead returns the SHA-256 digest hex —
also a pure function of the input, computed by the platform.) -/
def hashToHex (input : String) : String :=
  let hash := input.data.foldl (fun h c => djb2Step h c.toNat) 5381
  padStart 8 '0' (hexStr (hash % U32))

/-- String.prototype.slice(0, stop) for a non-negative stop. -/
def jsSlice0 (s : String) (stop : Nat) : String := String.mk (s.data.take stop)

/-- createBookId from useEpub.tsx: the canonical identity, hashed, truncated
to 32 characters, under the bok_ tag. -/
def createBookId (opf : OpfMetadata) : String :=
  "bok_" ++ jsSlice0 (hashToHex (getCanonicalBookIdentity opf)) 32

/-! ### useEpub.tsx: path resolution -/

/-- String.prototype.split("/") on the character list: "" splits to [""],
and separators at the ends produce empty segments, exactly as in JavaScript. -/
def splitSeg : List Char → List (List Char)
  | [] => [[]]
  | c :: rest =>
    if c = '/' then [] :: splitSeg rest
    else
      match splitSeg rest with
      | s :: ss => (c :: s) :: ss
      | [] => [[c]]

/-- Array.prototype.join("/") on segment lists. -/
def joinSeg : List (List Char) → List Char
  | [] => []
  | [s] => s
  | s :: rest => s ++ '/' :: joinSeg rest

/-- The segment loop of resolvePath: "." is skipped, ".." pops the stack
(a pop on an empty array is a no-op), anything else is pushed. -/
def resolveStep (stack : List (List Char)) (part : List Char) : List (List Char) :=
  if part = ['.'] then stack
  else if part = ['.', '.'] then stack.dropLast
  else stack ++ [part]

/-- resolvePath from useEpub.tsx: split the base on "/", pop the file name,
fold the relative reference's segments through resolveStep, and join. -/
def resolvePath (base relative : String) : String :=
  let stack := (splitSeg base.data).dropLast
  let parts := splitSeg relative.data
  String.mk (joinSeg (parts.foldl resolveStep stack))

/-- The anchor rewrite in manipulateDom resolves a relative href against the
spine item's own path. -/
def anchorTargetPath (currentPath targetPath : String) : String :=
  resolvePath currentPath targetPath

/-- resolveTocHref resolves a TOC entry's path against the TOC file's own
path before the manifest lookup. -/
def tocTargetPath (tocFileHref path : String) : String :=
  resolvePath tocFileHref path

/-- The leading-character loop of formatImg / formatXMLImage:
while (src.startsWith(".") || src.startsWith("/")) src = src.slice(1). -/
def stripDotSlash : List Char → List Char
  | [] => []
  | c :: rest => if c = '.' ∨ c = '/' then stripDotSlash rest else c :: rest

/-- The image fetch path built by formatImg / formatXMLImage: the stripped
source appended to the OPF folder (not resolved against the referencing
file). -/
def imgFetchPath (opfFolder src : String) : String :=
  opfFolder ++ String.mk (stripDotSlash src.data)

/-! ### useEpub.tsx: the CSS sanitizer

stripUnneededRules is a pipeline of global regex replacements.  Each is
modelled by a deterministic left-to-right scanner; for each of the regexes
involved the greedy backtracking can never succeed where the deterministic
scan fails (character classes are disjoint from the delimiters that follow
them), so the scanners compute exactly the JavaScript result.  All scanners
recurse on an explicit fuel (the remaining input length) so that concrete
instances reduce by evaluation. -/

/-- Replacement of /\*[\s\S]*?\*/ (non-greedy): on "/*" scan for the first
"*/" and drop through it; an unterminated comment tail is kept verbatim
(the regex fails without a closing delimiter). -/
def stripCommentsAux : Nat → List Char → List Char
  | 0, cs => cs
  | _ + 1, [] => []
  | fuel + 1, c :: cs =>
    match c, cs with
    | '/', '*' :: rest =>
      match dropToCommentClose fuel rest with
      | some rest1 => stripCommentsAux fuel rest1
      | none => '/' :: '*' :: rest
    | _, _ => c :: stripCommentsAux fuel cs
where
  /-- Consume up to and including the first "*\/"; none when unterminated. -/
  dropToCommentClose : Nat → List Char → Option (List Char)
    | 0, _ => none
    | _ + 1, [] => none
    | fuel + 1, c :: cs =>
      match c, cs with
      | '*', '/' :: rest => some rest
      | _, _ => dropToCommentClose fuel cs

/-- Characters in the class [.#\w-], which must not immediately precede a
bare html/body selector for the rewrite to fire. -/
def isSelNameChar (c : Char) : Bool :=
  c = '.' ∨ c = '#' ∨ c = '-' ∨ c = '_' ∨ c.isAlphanum

/-- Characters in \w or "-", the class forbidden right after html/body by the
lookahead (?![\w-]). -/
def isWordDash (c : Char) : Bool :=
  c = '-' ∨ c = '_' ∨ c.isAlphanum

/-- Case-insensitive match of a literal ASCII keyword at the input head,
returning the rest. -/
def matchKeyword : List Char → List Char → Option (List Char)
  | [], cs => some cs
  | _ :: _, [] => none
  | k :: ks, c :: cs => if asciiLower c = k then matchKeyword ks cs else none

/-- Match html or body (case-insensitively) at the input head, subject to the
lookahead (?![\w-]); returns the rest after the keyword. -/
def tryHtmlBody (cs : List Char) : Option (List Char) :=
  match matchKeyword "html".data cs with
  | some rest =>
    if rest.head?.elim true (fun d => ¬ isWordDash d) then some rest
    else tryBodyKw cs
  | none => tryBodyKw cs
where
  /-- The body alternative of the same alternation. -/
  tryBodyKw (cs : List Char) : Option (List Char) :=
    match matchKeyword "body".data cs with
    | some rest =>
      if rest.head?.elim true (fun d => ¬ isWordDash d) then some rest
      else none
    | none => none

/-- Replacement of (^|[^.#\w-])(html|body)(?![\w-]) by the inert token.  The
constant replacement consumes the captured preceding character as well
(the source does not reinsert the group).  atStart is true only at the true
string start, where ^ can match with an empty capture; everywhere else a
preceding character outside [.#\w-] is consumed as part of the match. -/
def rewriteHtmlBodyAux (token : List Char) : Nat → Bool → List Char → List Char
  | 0, _, cs => cs
  | _ + 1, _, [] => []
  | fuel + 1, atStart, c :: cs =>
    if atStart then
      match tryHtmlBody (c :: cs) with
      | some rest => token ++ rewriteHtmlBodyAux token fuel false rest
      | none =>
        if isSelNameChar c then c :: rewriteHtmlBodyAux token fuel false cs
        else
          match tryHtmlBody cs with
          | some rest => token ++ rewriteHtmlBodyAux token fuel false rest
          | none => c :: rewriteHtmlBodyAux token fuel false cs
    else
      if isSelNameChar c then c :: rewriteHtmlBodyAux token fuel false cs
      else
        match tryHtmlBody cs with
        | some rest => token ++ rewriteHtmlBodyAux token fuel false rest
        | none => c :: rewriteHtmlBodyAux token fuel false cs

/-- Attempt to match prop(?:-[\w-]+)?\s*:[^;{}]*;? at the input head and
return the rest after the match.  The optional -[\w-]+ run is taken greedily;
since [\w-] characters can be neither whitespace nor ":", no shorter run can
ever satisfy the following \s*: when the full run does not, so the greedy
deterministic scan equals the regex. -/
def matchPropDecl (prop : List Char) (cs : List Char) : Option (List Char) :=
  (matchKeyword prop cs).bind fun afterName =>
    let afterOpt := match afterName with
      | '-' :: d :: rest =>
        if isWordDash d then some ((d :: rest).dropWhile isWordDash) else none
      | _ => none
    let afterSuffix := afterOpt.getD afterName
    match afterSuffix.dropWhile isWs with
    | ':' :: afterColon =>
      let afterValue := afterColon.dropWhile (fun c => ¬ (c = ';' ∨ c = '{' ∨ c = '}'))
      match afterValue with
      | ';' :: rest => some rest
      | _ => some afterValue
    | _ => none

/-- Global replacement of one property-declaration regex by the empty string:
scan left to right, removing every match. -/
def removePropAux (prop : List Char) : Nat → List Char → List Char
  | 0, cs => cs
  | _ + 1, [] => []
  | fuel + 1, c :: cs =>
    match matchPropDecl prop (c :: cs) with
    | some rest => removePropAux prop fuel rest
    | none => c :: removePropAux prop fuel cs

/-- Replacement of [^{}@]+\{\s*\}: a maximal non-empty run outside {}@
followed by an all-whitespace braced body is dropped.  The run is taken
greedily; a shorter run would have to end at a character outside {}@, where
\{ cannot match, so the deterministic scan equals the regex. -/
def dropEmptyRulesAux : Nat → List Char → List Char
  | 0, cs => cs
  | _ + 1, [] => []
  | fuel + 1, c :: cs =>
    if c = '{' ∨ c = '}' ∨ c = '@' then c :: dropEmptyRulesAux fuel cs
    else
      let run := (c :: cs).takeWhile (fun d => ¬ (d = '{' ∨ d = '}' ∨ d = '@'))
      let rest := (c :: cs).dropWhile (fun d => ¬ (d = '{' ∨ d = '}' ∨ d = '@'))
      match rest with
      | '{' :: body =>
        match body.dropWhile isWs with
        | '}' :: tail => dropEmptyRulesAux fuel tail
        | _ => run ++ '{' :: dropEmptyRulesAux fuel body
      | _ => run ++ dropEmptyRulesAux fuel rest

/-- Replacement of @media[^{]*\{\s*\}: an @media header with an
all-whitespace braced body is dropped. -/
def dropEmptyMediaAux : Nat → List Char → List Char
  | 0, cs => cs
  | _ + 1, [] => []
  | fuel + 1, c :: cs =>
    match matchKeywordCase "@media".data (c :: cs) with
    | some afterKw =>
      let header := afterKw.takeWhile (fun d => d ≠ '{')
      let rest := afterKw.dropWhile (fun d => d ≠ '{')
      match rest with
      | '{' :: body =>
        match body.dropWhile isWs with
        | '}' :: tail => dropEmptyMediaAux fuel tail
        | _ => c :: dropEmptyMediaAux fuel cs
      | _ => "@media".data ++ header ++ dropEmptyMediaAux fuel rest
    | none => c :: dropEmptyMediaAux fuel cs
where
  /-- Case-sensitive literal match (this regex carries no i flag). -/
  matchKeywordCase : List Char → List Char → Option (List Char)
    | [], cs => some cs
    | _ :: _, [] => none
    | k :: ks, c :: cs => if c = k then matchKeywordCase ks cs else none

/-- Replacement of \n\s*\n by a single newline, applied globally left to
right (after a replacement the scan resumes after the inserted newline). -/
def collapseBlankLinesAux : Nat → List Char → List Char
  | 0, cs => cs
  | _ + 1, [] => []
  | fuel + 1, c :: cs =>
    if c = '\n' then
      -- the greedy \s* backtracks to end just before the last newline of the
      -- whitespace run, which then closes the match; whitespace after that
      -- newline is rescanned
      let ws := cs.takeWhile isWs
      let rest := cs.dropWhile isWs
      if ws.any (fun d => d = '\n') then
        let trailing := (ws.reverse.takeWhile (fun d => d ≠ '\n')).reverse
        '\n' :: collapseBlankLinesAux fuel (trailing ++ rest)
      else c :: collapseBlankLinesAux fuel cs
    else c :: collapseBlankLinesAux fuel cs

/-- String.prototype.trim at the end of the pipeline. -/
def stripUnneededRules (allCss : String) : String :=
  let enemiesOfTheState : List (List Char) :=
    ([ "background-color", "color", "font-size", "font-family",
       "font-weight", "line-height", "text-align", "margin", "padding" ] : List String).map
      String.data
  let token : List Char := "butt-sex-masterr".data
  let css0 := allCss.data
  let css1 := stripCommentsAux css0.length css0
  let css2 := rewriteHtmlBodyAux token css1.length true css1
  let css3 := enemiesOfTheState.foldl (fun cs prop => removePropAux prop cs.length cs) css2
  let css4 := dropEmptyRulesAux css3.length css3
  let css5 := dropEmptyMediaAux css4.length css4
  let css6 := collapseBlankLinesAux css5.length css5
  jsTrim (String.mk css6)

/-! ### Supporting lemmas for the rendering functions -/

theorem baseDigitsAux_length (b : Nat) (hb : 2 ≤ b) :
    ∀ fuel n k, n < b ^ k → (baseDigitsAux b fuel n).length ≤ k := by
  intro fuel
  induction fuel with
  | zero => intro n k _; simp [baseDigitsAux]
  | succ f ih =>
    intro n k hk
    by_cases h0 : n = 0
    · simp [baseDigitsAux, h0]
    · cases k with
      | zero => simp at hk; omega
      | succ k0 =>
        have hdiv : n / b < b ^ k0 := by
          have hbpos : 0 < b := by omega
          rw [Nat.div_lt_iff_lt_mul hbpos]
          calc n < b ^ (k0 + 1) := hk
          _ = b ^ k0 * b := by ring
        simp only [baseDigitsAux, h0, if_false, List.length_cons]
        exact Nat.succ_le_succ (ih (n / b) k0 hdiv)

/-- The sixteen characters renderBase can emit. -/
def hexChars : List Char := "0123456789abcdef".data

theorem digitChar_mem_hexChars : ∀ d < 16, digitChar d ∈ hexChars := by decide

theorem renderBase_chars (b : Nat) (hb2 : 2 ≤ b) (hb16 : b ≤ 16) (n : Nat) :
    ∀ c ∈ (renderBase b n).data, c ∈ hexChars := by
  intro c hc
  unfold renderBase at hc
  by_cases h0 : n = 0
  · simp only [h0, if_true] at hc
    have : c = '0' := by simpa using hc
    rw [this]; decide
  · simp only [h0, if_false, String.mk, List.mem_reverse, List.mem_map] at hc
    obtain ⟨d, hd, hdc⟩ := hc
    rw [← hdc]
    exact digitChar_mem_hexChars d (lt_of_lt_of_le (baseDigitsAux_lt b hb2 _ _ _ hd) hb16)

theorem renderBase_length (b : Nat) (hb : 2 ≤ b) (n k : Nat) (h1 : 1 ≤ k) (hk : n < b ^ k) :
    (renderBase b n).length ≤ k := by
  unfold renderBase
  by_cases h0 : n = 0
  · simpa [h0] using h1
  · simp only [h0, if_false]
    have : (String.mk (((baseDigitsAux b n n).map digitChar).reverse)).length
        = (baseDigitsAux b n n).length := by
      simp [String.length]
    rw [this]
    exact baseDigitsAux_length b hb n n k hk

theorem padStart_length (len : Nat) (c : Char) (s : String) (h : s.length ≤ len) :
    (padStart len c s).length = len := by
  unfold padStart
  rw [String.length_append]
  have h1 : (String.mk (List.replicate (len - s.length) c)).length = len - s.length := by
    show (List.replicate (len - s.length) c).length = len - s.length
    simp
  rw [h1]
  omega

theorem jsSlice0_of_le (s : String) (stop : Nat) (h : s.length ≤ stop) :
    jsSlice0 s stop = s := by
  unfold jsSlice0
  apply String.ext
  show s.data.take stop = s.data
  exact List.take_of_length_le h

/-! ### Claim theorems C10, C2, C5, C7, C8 -/

/-- C10: clampProgress is total, maps every non-finite input (NaN, positive
or negative infinity) to exactly 0, and its result always lies in [0, 1], so
no caller can observe a NaN or out-of-range progress value. -/
theorem C10_clampProgress_total_and_bounded (x : JSNum) :
    ((x = .nan ∨ x = .posInf ∨ x = .negInf) → clampProgress x = 0)
    ∧ 0 ≤ clampProgress x ∧ clampProgress x ≤ 1 := by
  refine ⟨?_, ?_, ?_⟩
  · rintro (rfl | rfl | rfl) <;> rfl
  · cases x with
    | finite q =>
      simp only [clampProgress, jsMax, jsMin]
      split_ifs <;> linarith
    | nan => simp [clampProgress]
    | posInf => simp [clampProgress]
    | negInf => simp [clampProgress]
  · cases x with
    | finite q =>
      simp only [clampProgress, jsMax, jsMin]
      split_ifs <;> linarith
    | nan => simp [clampProgress]
    | posInf => simp [clampProgress]
    | negInf => simp [clampProgress]

/-- Witness for C10 at a concrete non-finite input. -/
theorem C10_clampProgress_total_and_bounded_witness :
    clampProgress .nan = 0 ∧ 0 ≤ clampProgress .nan ∧ clampProgress .nan ≤ 1 :=
  ⟨(C10_clampProgress_total_and_bounded .nan).1 (Or.inl rfl),
    (C10_clampProgress_total_and_bounded .nan).2⟩

/-- C2: hasProgressConflict returns true exactly when the remote progress is
present, the clamped local progress exceeds PROGRESS_EPSILON, and the two
clamped values differ by more than PROGRESS_EPSILON; in particular the three
quoted instances 0.73 vs 0 (conflict), 0 vs 0.73 (no conflict) and 0.7 vs
undefined (no conflict) evaluate as the claim states. -/
theorem C2_hasProgressConflict_characterization :
    (∀ (localProgress : JSNum) (remoteProgress : Option JSNum),
      hasProgressConflict localProgress remoteProgress = true ↔
        ∃ rv, remoteProgress = some rv
          ∧ PROGRESS_EPSILON < clampProgress localProgress
          ∧ PROGRESS_EPSILON < |clampProgress localProgress - clampProgress rv|)
    ∧ hasProgressConflict (.finite (mkRat 73 100)) (some (.finite 0)) = true
    ∧ hasProgressConflict (.finite 0) (some (.finite (mkRat 73 100))) = false
    ∧ hasProgressConflict (.finite (mkRat 7 10)) none = false := by
  refine ⟨?_, by decide, by decide, rfl⟩
  intro localProgress remoteProgress
  cases remoteProgress with
  | none => simp [hasProgressConflict]
  | some rv =>
    simp only [hasProgressConflict]
    by_cases h : clampProgress localProgress ≤ PROGRESS_EPSILON
    · simp only [h, if_true]
      constructor
      · intro hfalse; cases hfalse
      · rintro ⟨rv', hrv', hlt, _⟩
        exact absurd hlt (not_lt.mpr h)
    · simp only [h, if_false, decide_eq_true_eq, absDiff_eq]
      constructor
      · intro habs
        exact ⟨rv, rfl, not_le.mp h, habs⟩
      · rintro ⟨rv', hrv', _, habs⟩
        cases Option.some_injective _ hrv'
        exact habs

/-- The fallback hash always renders to exactly eight characters. -/
theorem hashToHex_length (s : String) : (hashToHex s).length = 8 := by
  unfold hashToHex
  apply padStart_length
  apply renderBase_length 16 (by norm_num) _ 8 (by norm_num)
  have h16 : (16 : Nat) ^ 8 = U32 := by norm_num [U32]
  rw [h16]
  exact Nat.mod_lt _ (by norm_num [U32])

/-- Every character of the fallback hash is a lowercase hex digit. -/
theorem hashToHex_chars (s : String) : ∀ c ∈ (hashToHex s).data, c ∈ hexChars := by
  intro c hc
  unfold hashToHex padStart at hc
  rw [String.data_append] at hc
  rcases List.mem_append.mp hc with h | h
  · have : c = '0' := List.eq_of_mem_replicate h
    rw [this]; decide
  · exact renderBase_chars 16 (by norm_num) (by norm_num) _ c h

/-- C5: createBookId is a deterministic function of the canonical OPF
identity — equal extracted metadata always yields the same identity string —
and its result is the namespace tag bok_ followed by a fixed-length (here
8-character) truncated lowercase-hex hash token. -/
theorem C5_createBookId_deterministic :
    (∀ opf1 opf2 : OpfMetadata,
      getCanonicalBookIdentity opf1 = getCanonicalBookIdentity opf2 →
        createBookId opf1 = createBookId opf2)
    ∧ (∀ opf : OpfMetadata, ∃ hex : String,
        createBookId opf = "bok_" ++ hex ∧ hex.length = 8 ∧ ∀ c ∈ hex.data, c ∈ hexChars) := by
  constructor
  · intro opf1 opf2 h
    unfold createBookId
    rw [h]
  · intro opf
    refine ⟨hashToHex (getCanonicalBookIdentity opf), ?_, hashToHex_length _, hashToHex_chars _⟩
    unfold createBookId
    rw [jsSlice0_of_le]
    rw [hashToHex_length]
    norm_num

/-- Witness for C5 at a concrete metadata record. -/
theorem C5_createBookId_deterministic_witness :
    createBookId ⟨none, [], some "T", none, none, none⟩
        = createBookId ⟨none, [], some "T", none, none, none⟩
    ∧ ∃ hex : String,
        createBookId ⟨none, [], some "T", none, none, none⟩ = "bok_" ++ hex
          ∧ hex.length = 8 ∧ ∀ c ∈ hex.data, c ∈ hexChars :=
  ⟨C5_createBookId_deterministic.1 _ _ rfl,
    C5_createBookId_deterministic.2 ⟨none, [], some "T", none, none, none⟩⟩

/-- C7: evaluating the sanitizer on a stylesheet whose only declaration is
border-color — not one of the removed properties, border-color being a
longhand of border — shows the unanchored property regex matching the color
suffix and leaving the mangled fragment border- behind. -/
theorem C7_stripUnneededRules_mangles_border_color :
    stripUnneededRules "p \x7b border-color: red; \x7d" = "p \x7b border- \x7d" := by
  decide

/-- C8 (amended): for pageCount ≥ 1, goToPage and changePage clamp into
[0, pageCount - 1] and therefore never go negative; for pageCount = 0 both
produce -1 (the floored value 0 still trips the upper test), so the claimed
bound fails in exactly that case. -/
theorem C8_navigation_clamps (pageCount n prev amount : Int) :
    (1 ≤ pageCount →
      goToPage pageCount n = max 0 (min n (pageCount - 1))
        ∧ 0 ≤ goToPage pageCount n
        ∧ changePage pageCount prev amount = max 0 (min (prev + amount) (pageCount - 1))
        ∧ 0 ≤ changePage pageCount prev amount)
    ∧ (pageCount = 0 →
      goToPage pageCount n = -1 ∧ changePage pageCount prev amount = -1) := by
  constructor
  · intro h1
    refine ⟨?_, ?_, ?_, ?_⟩ <;>
      · simp only [goToPage, changePage]
        split_ifs <;> omega
  · intro h0
    subst h0
    constructor <;>
      · simp only [goToPage, changePage]
        split_ifs <;> omega

/-- Witness for C8 at concrete inputs: pageCount 3 clamps 5 to 2, and
pageCount 0 sends 7 to -1. -/
theorem C8_navigation_clamps_witness :
    goToPage 3 5 = 2 ∧ 0 ≤ goToPage 3 5 ∧ changePage 3 2 1 = 2 ∧ goToPage 0 7 = -1 := by
  have h3 := (C8_navigation_clamps 3 5 2 1).1 (by norm_num)
  have h0 := (C8_navigation_clamps 0 7 0 0).2 rfl
  refine ⟨?_, h3.2.1, ?_, h0.1⟩
  · rw [h3.1]; decide
  · rw [h3.2.2.1]; decide

/-- C8 counterexample: with pageCount = 0 the navigation functions store -1,
so currentPage is not clamped into [0, pageCount - 1] and the PageState lower
bound 0 ≤ currentPage fails. -/
theorem C8_counterexample :
    goToPage 0 5 = -1 ∧ changePage 0 0 1 = -1 ∧ ¬ (0 : Int) ≤ (-1 : Int) := by
  refine ⟨rfl, rfl, by decide⟩

/-! ### Path resolution lemmas for C6 -/

theorem data_mk (l : List Char) : (String.mk l).data = l := rfl

theorem splitSeg_no_slash (s : List Char) (h : '/' ∉ s) : splitSeg s = [s] := by
  induction s with
  | nil => rfl
  | cons c cs ih =>
    have hc : c ≠ '/' := fun hc => h (hc ▸ List.mem_cons_self c cs)
    have hcs : '/' ∉ cs := fun hm => h (List.mem_cons_of_mem c hm)
    simp only [splitSeg, if_neg hc, ih hcs]

theorem splitSeg_append (s t : List Char) (h : '/' ∉ s) :
    splitSeg (s ++ '/' :: t) = s :: splitSeg t := by
  induction s with
  | nil => simp [splitSeg]
  | cons c cs ih =>
    have hc : c ≠ '/' := fun hc => h (hc ▸ List.mem_cons_self c cs)
    have hcs : '/' ∉ cs := fun hm => h (List.mem_cons_of_mem c hm)
    simp only [List.cons_append, splitSeg, if_neg hc, List.append_eq]
    rw [ih hcs]

theorem splitSeg_joinSeg (segs : List (List Char)) (hne : segs ≠ [])
    (h : ∀ s ∈ segs, '/' ∉ s) : splitSeg (joinSeg segs) = segs := by
  induction segs with
  | nil => exact absurd rfl hne
  | cons s rest ih =>
    cases rest with
    | nil => exact splitSeg_no_slash s (h s (List.mem_cons_self _ _))
    | cons r rs =>
      have hs : '/' ∉ s := h s (List.mem_cons_self _ _)
      have hrest : ∀ x ∈ r :: rs, '/' ∉ x := fun x hx => h x (List.mem_cons_of_mem _ hx)
      show splitSeg (s ++ '/' :: joinSeg (r :: rs)) = s :: r :: rs
      rw [splitSeg_append s _ hs, ih (by simp) hrest]

theorem foldl_resolveStep_plain (parts : List (List Char))
    (h : ∀ p ∈ parts, p ≠ ['.'] ∧ p ≠ ['.', '.']) :
    ∀ stack, List.foldl resolveStep stack parts = stack ++ parts := by
  induction parts with
  | nil => intro stack; simp
  | cons p ps ih =>
    intro stack
    have hp := h p (List.mem_cons_self _ _)
    have hstep : resolveStep stack p = stack ++ [p] := by
      unfold resolveStep
      rw [if_neg hp.1, if_neg hp.2]
    rw [List.foldl_cons, hstep, ih (fun x hx => h x (List.mem_cons_of_mem _ hx)) (stack ++ [p])]
    simp

theorem resolvePath_eq (base relative : String) :
    resolvePath base relative
      = String.mk (joinSeg (List.foldl resolveStep ((splitSeg base.data).dropLast)
          (splitSeg relative.data))) := rfl

/-- C6 (amended): anchor href targets and TOC entry hrefs go through
resolvePath against the referencing file's own path, and resolvePath resolves
against that file's directory — the file name itself is dropped, plain
segments are appended to the directory, a leading "." segment is skipped, and
a leading ".." segment pops one directory — while image sources are NOT
resolved this way: formatImg / formatXMLImage strip leading "." and "/"
characters and prefix the fixed OPF folder, which differs from own-directory
resolution for a chapter inside a subdirectory (concrete instance in the last
two conjuncts). -/
theorem C6_path_resolution :
    (∀ currentPath targetPath : String,
      anchorTargetPath currentPath targetPath = resolvePath currentPath targetPath
        ∧ tocTargetPath currentPath targetPath = resolvePath currentPath targetPath)
    ∧ (∀ (dir : List (List Char)) (name : List Char) (parts : List (List Char)),
      (∀ s ∈ dir, '/' ∉ s) → '/' ∉ name → parts ≠ [] → (∀ p ∈ parts, '/' ∉ p) →
      (∀ p ∈ parts, p ≠ ['.'] ∧ p ≠ ['.', '.']) →
      resolvePath (String.mk (joinSeg (dir ++ [name]))) (String.mk (joinSeg parts))
        = String.mk (joinSeg (dir ++ parts)))
    ∧ (∀ (dir : List (List Char)) (name : List Char) (parts : List (List Char)),
      (∀ s ∈ dir, '/' ∉ s) → '/' ∉ name → parts ≠ [] → (∀ p ∈ parts, '/' ∉ p) →
      (∀ p ∈ parts, p ≠ ['.'] ∧ p ≠ ['.', '.']) →
      resolvePath (String.mk (joinSeg (dir ++ [name])))
          (String.mk (joinSeg (['.'] :: parts)))
        = String.mk (joinSeg (dir ++ parts)))
    ∧ (∀ (dir : List (List Char)) (d name : List Char) (parts : List (List Char)),
      (∀ s ∈ dir, '/' ∉ s) → '/' ∉ d → '/' ∉ name → parts ≠ [] → (∀ p ∈ parts, '/' ∉ p) →
      (∀ p ∈ parts, p ≠ ['.'] ∧ p ≠ ['.', '.']) →
      resolvePath (String.mk (joinSeg (dir ++ [d, name])))
          (String.mk (joinSeg (['.', '.'] :: parts)))
        = String.mk (joinSeg (dir ++ parts)))
    ∧ imgFetchPath "OEBPS/" "img/pic.png" = "OEBPS/img/pic.png"
    ∧ resolvePath "OEBPS/text/ch1.xhtml" "img/pic.png" = "OEBPS/text/img/pic.png" := by
  refine ⟨fun _ _ => ⟨rfl, rfl⟩, ?_, ?_, ?_, by decide, by decide⟩
  · intro dir name parts hdir hname hne hslash hplain
    rw [resolvePath_eq, data_mk, data_mk]
    rw [splitSeg_joinSeg (dir ++ [name]) (by simp) (by
      intro s hs
      rcases List.mem_append.mp hs with h | h
      · exact hdir s h
      · rw [List.mem_singleton.mp h]; exact hname)]
    rw [splitSeg_joinSeg parts hne hslash]
    rw [List.dropLast_concat, foldl_resolveStep_plain parts hplain dir]
  · intro dir name parts hdir hname hne hslash hplain
    rw [resolvePath_eq, data_mk, data_mk]
    rw [splitSeg_joinSeg (dir ++ [name]) (by simp) (by
      intro s hs
      rcases List.mem_append.mp hs with h | h
      · exact hdir s h
      · rw [List.mem_singleton.mp h]; exact hname)]
    rw [splitSeg_joinSeg (['.'] :: parts) (by simp) (by
      intro s hs
      rcases List.mem_cons.mp hs with h | h
      · rw [h]; decide
      · exact hslash s h)]
    rw [List.dropLast_concat, List.foldl_cons]
    have hdot : resolveStep dir ['.'] = dir := by unfold resolveStep; rw [if_pos rfl]
    rw [hdot, foldl_resolveStep_plain parts hplain dir]
  · intro dir d name parts hdir hd hname hne hslash hplain
    rw [resolvePath_eq, data_mk, data_mk]
    rw [splitSeg_joinSeg (dir ++ [d, name]) (by simp) (by
      intro s hs
      rcases List.mem_append.mp hs with h | h
      · exact hdir s h
      · rcases List.mem_cons.mp h with h1 | h1
        · rw [h1]; exact hd
        · rw [List.mem_singleton.mp h1]; exact hname)]
    rw [splitSeg_joinSeg (['.', '.'] :: parts) (by simp) (by
      intro s hs
      rcases List.mem_cons.mp hs with h | h
      · rw [h]; decide
      · exact hslash s h)]
    have hsplit : dir ++ [d, name] = (dir ++ [d]) ++ [name] := by simp
    rw [hsplit, List.dropLast_concat, List.foldl_cons]
    have hpop : resolveStep (dir ++ [d]) ['.', '.'] = dir := by
      unfold resolveStep
      rw [if_neg (by decide), if_pos rfl, List.dropLast_concat]
    rw [hpop, foldl_resolveStep_plain parts hplain dir]

/-- Witness for C6 at concrete inputs: a chapter text/ch1.xhtml referencing
img/pic.png resolves to text/img/pic.png, ./img/pic.png resolves the same,
and ../img/pic.png from text/sub/ch1.xhtml pops back to text/img/pic.png. -/
theorem C6_path_resolution_witness :
    anchorTargetPath "a" "b" = resolvePath "a" "b"
    ∧ resolvePath "text/ch1.xhtml" "img/pic.png" = "text/img/pic.png"
    ∧ resolvePath "text/ch1.xhtml" "./img/pic.png" = "text/img/pic.png"
    ∧ resolvePath "text/sub/ch1.xhtml" "../img/pic.png" = "text/img/pic.png" := by
  have h1 := (C6_path_resolution.1 "a" "b").1
  have h2 := C6_path_resolution.2.1 ["text".data] "ch1.xhtml".data
    ["img".data, "pic.png".data]
    (by decide) (by decide) (by decide) (by decide) (by decide)
  have h3 := C6_path_resolution.2.2.1 ["text".data] "ch1.xhtml".data
    ["img".data, "pic.png".data]
    (by decide) (by decide) (by decide) (by decide) (by decide)
  have h4 := C6_path_resolution.2.2.2.1 ["text".data] "sub".data "ch1.xhtml".data
    ["img".data, "pic.png".data]
    (by decide) (by decide) (by decide) (by decide) (by decide) (by decide)
  exact ⟨h1, h2, h3, h4⟩

/-- C6 counterexample: the claim as stated requires image sources to be
resolved against the referencing file's directory, but a chapter at
OEBPS/text/ch1.xhtml referencing img/pic.png is fetched from
OEBPS/img/pic.png (OPF folder OEBPS/), not from the referencing file's
directory OEBPS/text/. -/
theorem C6_counterexample :
    imgFetchPath "OEBPS/" "img/pic.png" = "OEBPS/img/pic.png"
    ∧ resolvePath "OEBPS/text/ch1.xhtml" "img/pic.png" = "OEBPS/text/img/pic.png"
    ∧ ("OEBPS/img/pic.png" : String) ≠ "OEBPS/text/img/pic.png" := by
  refine ⟨by decide, by decide, by decide⟩

/-! ### Outbox lemmas for C4 -/

theorem insertByEmittedAt_perm {α : Type} (e : PendingSyncEvent α) (l : List (PendingSyncEvent α)) :
    (insertByEmittedAt e l).Perm (e :: l) := by
  induction l with
  | nil => simp [insertByEmittedAt]
  | cons x xs ih =>
    unfold insertByEmittedAt
    split_ifs with hcmp
    · exact ((ih.cons x).trans (List.Perm.swap e x xs))
    · exact List.Perm.refl _

theorem insertByEmittedAt_sorted {α : Type} (e : PendingSyncEvent α)
    (l : List (PendingSyncEvent α))
    (h : List.Pairwise (fun a b => a.emittedAt ≤ b.emittedAt) l) :
    List.Pairwise (fun a b => a.emittedAt ≤ b.emittedAt) (insertByEmittedAt e l) := by
  induction l with
  | nil => simp [insertByEmittedAt]
  | cons x xs ih =>
    rcases List.pairwise_cons.mp h with ⟨hx, hxs⟩
    unfold insertByEmittedAt
    split_ifs with hcmp
    · apply List.pairwise_cons.mpr
      refine ⟨?_, ih hxs⟩
      intro b hb
      rcases List.mem_cons.mp ((insertByEmittedAt_perm e xs).mem_iff.mp hb) with rfl | hbxs
      · omega
      · exact hx b hbxs
    · apply List.pairwise_cons.mpr
      constructor
      · intro b hb
        rcases List.mem_cons.mp hb with rfl | hbxs
        · omega
        · have := hx b hbxs; omega
      · exact h

theorem listPendingSyncEvents_sorted {α : Type} (m : MapList (PendingSyncEvent α)) :
    List.Pairwise (fun a b => a.emittedAt ≤ b.emittedAt) (listPendingSyncEvents m) := by
  unfold listPendingSyncEvents
  generalize mapValues m = l
  induction l with
  | nil => simp
  | cons e es ih => exact insertByEmittedAt_sorted e _ ih

theorem listPendingSyncEvents_perm {α : Type} (m : MapList (PendingSyncEvent α)) :
    (listPendingSyncEvents m).Perm (mapValues m) := by
  unfold listPendingSyncEvents
  generalize mapValues m = l
  induction l with
  | nil => simp
  | cons e es ih => exact (insertByEmittedAt_perm e _).trans (ih.cons e)

theorem acknowledge_eq_filter {α : Type} (m : MapList (PendingSyncEvent α)) (ids : List String) :
    acknowledgePendingSyncEvents m ids = m.filter (fun p => !(ids.contains p.1)) := by
  induction ids generalizing m with
  | nil =>
    unfold acknowledgePendingSyncEvents
    simp
  | cons i is ih =>
    show acknowledgePendingSyncEvents (mapDelete m i) is = _
    rw [ih (mapDelete m i)]
    unfold mapDelete
    rw [List.filter_filter]
    apply List.filter_congr
    intro p _
    by_cases h1 : p.1 = i <;> by_cases h2 : is.contains p.1 <;>
      simp [h1, h2, List.contains_cons]

/-- C4: listPendingSyncEvents lists the outbox sorted by emittedAt ascending
and is a permutation of the stored events whatever the insertion order; the
quoted run (insertion order 20, 10, 30) lists as 10, 20, 30;
acknowledgePendingSyncEvents removes exactly the events with the given
mutation ids, keeping the remaining entries in their stored relative order
(it is the filter by membership), and afterwards the quoted run lists just
the event with timestamp 20. -/
theorem C4_outbox_ordering :
    (∀ (α : Type) (m : MapList (PendingSyncEvent α)),
      List.Pairwise (fun a b => a.emittedAt ≤ b.emittedAt) (listPendingSyncEvents m)
        ∧ (listPendingSyncEvents m).Perm (mapValues m))
    ∧ (∀ (α : Type) (m : MapList (PendingSyncEvent α)) (ids : List String),
      acknowledgePendingSyncEvents m ids = m.filter (fun p => !(ids.contains p.1)))
    ∧ (listPendingSyncEvents (enqueuePendingSyncEvent (enqueuePendingSyncEvent
        (enqueuePendingSyncEvent ([] : MapList (PendingSyncEvent Unit))
          ⟨"m2", 20, ()⟩) ⟨"m1", 10, ()⟩) ⟨"m3", 30, ()⟩)).map
        (fun e => e.mutationId) = ["m1", "m2", "m3"]
    ∧ (listPendingSyncEvents (acknowledgePendingSyncEvents (enqueuePendingSyncEvent
        (enqueuePendingSyncEvent (enqueuePendingSyncEvent
          ([] : MapList (PendingSyncEvent Unit)) ⟨"m2", 20, ()⟩) ⟨"m1", 10, ()⟩)
        ⟨"m3", 30, ()⟩) ["m1", "m3"])).map (fun e => e.mutationId) = ["m2"] :=
  ⟨fun α m => ⟨listPendingSyncEvents_sorted m, listPendingSyncEvents_perm m⟩,
    fun α m ids => acknowledge_eq_filter m ids, by decide, by decide⟩

/-! ### C9: the end > start invariant for highlights -/

/-- C9 (amended): every highlight the selection path accepts satisfies
end > start — handleHighlightColor either leaves the highlight list unchanged
or appends one highlight with the offsets it validated — so any member of the
resulting list was already stored or has start < end.  (Sync-applied
highlights are not validated; see the counterexample.) -/
theorem C9_selection_highlights_end_gt_start (st : ReaderState)
    (hasRange sameChapter : Bool) (chapterId : String) (start stop : Nat)
    (color : HighlightColor) (text : Option String) (newId mid : String) (now : Nat)
    (h : Highlight)
    (hmem : h ∈ (handleHighlightColor st hasRange sameChapter chapterId start stop
      color text newId mid now).highlights) :
    h ∈ st.highlights ∨ h.start < h.«end» := by
  unfold handleHighlightColor at hmem
  by_cases h1 : (¬ hasRange = true)
  · rw [if_pos h1] at hmem; exact Or.inl hmem
  · rw [if_neg h1] at hmem
    by_cases h2 : (¬ sameChapter = true)
    · rw [if_pos h2] at hmem; exact Or.inl hmem
    · rw [if_neg h2] at hmem
      by_cases h3 : chapterId = ""
      · rw [if_pos h3] at hmem; exact Or.inl hmem
      · rw [if_neg h3] at hmem
        by_cases h4 : stop ≤ start
        · rw [if_pos h4] at hmem; exact Or.inl hmem
        · rw [if_neg h4] at hmem
          have hmem1 : h ∈ st.highlights
              ++ [Highlight.mk newId chapterId start stop color text] := by
            simp only [handleAddHighlight, emitSyncEvent] at hmem
            split_ifs at hmem <;> simpa using hmem
          rcases List.mem_append.mp hmem1 with hold | hnew
          · exact Or.inl hold
          · right
            rw [List.mem_singleton.mp hnew]
            show start < stop
            omega

/-- Witness for C9: a concrete selection over offsets 1 < 3 is accepted and
the stored highlight satisfies the bound. -/
theorem C9_selection_highlights_end_gt_start_witness :
    (⟨"h1", "c1", 1, 3, .yellow, none⟩ : Highlight)
        ∈ (handleHighlightColor ⟨"b", false, true, 0, true, none, [], [], [], "", none, 0⟩
            true true "c1" 1 3 .yellow none "h1" "m" 0).highlights
    ∧ ((⟨"h1", "c1", 1, 3, .yellow, none⟩ : Highlight) ∈ ([] : List Highlight)
        ∨ (1 : Nat) < 3) := by
  refine ⟨by decide, ?_⟩
  exact C9_selection_highlights_end_gt_start
    ⟨"b", false, true, 0, true, none, [], [], [], "", none, 0⟩
    true true "c1" 1 3 .yellow none "h1" "m" 0
    ⟨"h1", "c1", 1, 3, .yellow, none⟩ (by decide)

/-- C9 counterexample: applySyncStateToReader installs the highlights of an
accepted sync state without validating the offsets, so a state carrying a
highlight with end ≤ start (here start 5, end 3) puts it into the stored
set, refuting the claim that no operation ever adds such a highlight. -/
theorem C9_counterexample :
    ((applySyncStateToReader ⟨"b", false, true, 0, true, none, [], [], [], "", none, 0⟩
        { bookId := "b", highlights := some [⟨"h", "c", 5, 3, .yellow, none⟩] }
        "m" 0).1.highlights.any (fun h => h.«end» ≤ h.start)) = true := by
  decide

/-! ### Serialization and signature lemmas for C3 -/

theorem serializeHighlight_data (h : Highlight) :
    (serializeHighlight h).data
      = h.id.data ++ ':' :: (h.chapterId.data ++ ':' :: ((decStr h.start).data
          ++ ':' :: ((decStr h.«end»).data ++ ':' :: (h.color.str.data
          ++ ':' :: (h.text.getD "").data)))) := by
  have hcolon : (":" : String).data = [':'] := rfl
  simp only [serializeHighlight, String.data_append, hcolon, List.append_assoc,
    List.singleton_append, List.cons_append, List.nil_append]

/-- h and h' differ in exactly one of the six serialized fields (for text,
modulo the undefined-to-empty normalization the serializer applies). -/
def SingleFieldDiff (h h' : Highlight) : Prop :=
  (h.id ≠ h'.id ∧ h.chapterId = h'.chapterId ∧ h.start = h'.start ∧ h.«end» = h'.«end»
    ∧ h.color = h'.color ∧ h.text = h'.text)
  ∨ (h.id = h'.id ∧ h.chapterId ≠ h'.chapterId ∧ h.start = h'.start ∧ h.«end» = h'.«end»
    ∧ h.color = h'.color ∧ h.text = h'.text)
  ∨ (h.id = h'.id ∧ h.chapterId = h'.chapterId ∧ h.start ≠ h'.start ∧ h.«end» = h'.«end»
    ∧ h.color = h'.color ∧ h.text = h'.text)
  ∨ (h.id = h'.id ∧ h.chapterId = h'.chapterId ∧ h.start = h'.start ∧ h.«end» ≠ h'.«end»
    ∧ h.color = h'.color ∧ h.text = h'.text)
  ∨ (h.id = h'.id ∧ h.chapterId = h'.chapterId ∧ h.start = h'.start ∧ h.«end» = h'.«end»
    ∧ h.color ≠ h'.color ∧ h.text = h'.text)
  ∨ (h.id = h'.id ∧ h.chapterId = h'.chapterId ∧ h.start = h'.start ∧ h.«end» = h'.«end»
    ∧ h.color = h'.color ∧ h.text.getD "" ≠ h'.text.getD "")

theorem decStr_inj (n m : Nat) (h : decStr n = decStr m) : n = m :=
  renderBase_inj 10 (by norm_num) (by norm_num) n m h

theorem serializeHighlight_ne (h h' : Highlight) (hdiff : SingleFieldDiff h h') :
    serializeHighlight h ≠ serializeHighlight h' := by
  intro heq
  have hdata := congrArg String.data heq
  rw [serializeHighlight_data, serializeHighlight_data] at hdata
  rcases hdiff with ⟨hne, e2, e3, e4, e5, e6⟩ | ⟨e1, hne, e3, e4, e5, e6⟩
    | ⟨e1, e2, hne, e4, e5, e6⟩ | ⟨e1, e2, e3, hne, e5, e6⟩
    | ⟨e1, e2, e3, e4, hne, e6⟩ | ⟨e1, e2, e3, e4, e5, hne⟩
  · rw [e2, e3, e4, e5, e6] at hdata
    exact hne (String.ext (List.append_cancel_right hdata))
  · rw [e1, e3, e4, e5, e6] at hdata
    have := (List.cons.inj (List.append_cancel_left hdata)).2
    exact hne (String.ext (List.append_cancel_right this))
  · rw [e1, e2, e4, e5, e6] at hdata
    have h1 := (List.cons.inj (List.append_cancel_left hdata)).2
    have h2 := (List.cons.inj (List.append_cancel_left h1)).2
    exact hne (decStr_inj _ _ (String.ext (List.append_cancel_right h2)))
  · rw [e1, e2, e3, e5, e6] at hdata
    have h1 := (List.cons.inj (List.append_cancel_left hdata)).2
    have h2 := (List.cons.inj (List.append_cancel_left h1)).2
    have h3 := (List.cons.inj (List.append_cancel_left h2)).2
    exact hne (decStr_inj _ _ (String.ext (List.append_cancel_right h3)))
  · rw [e1, e2, e3, e4, e6] at hdata
    have h1 := (List.cons.inj (List.append_cancel_left hdata)).2
    have h2 := (List.cons.inj (List.append_cancel_left h1)).2
    have h3 := (List.cons.inj (List.append_cancel_left h2)).2
    have h4 := (List.cons.inj (List.append_cancel_left h3)).2
    exact hne (HighlightColor.str_inj _ _ (String.ext (List.append_cancel_right h4)))
  · rw [e1, e2, e3, e4, e5] at hdata
    have h1 := (List.cons.inj (List.append_cancel_left hdata)).2
    have h2 := (List.cons.inj (List.append_cancel_left h1)).2
    have h3 := (List.cons.inj (List.append_cancel_left h2)).2
    have h4 := (List.cons.inj (List.append_cancel_left h3)).2
    have h5 := (List.cons.inj (List.append_cancel_left h4)).2
    exact hne (String.ext h5)

theorem areHighlightsEqual_of_perm (left right : List Highlight) (hp : left.Perm right) :
    areHighlightsEqual left right = true := by
  unfold areHighlightsEqual
  have hmap := hp.map serializeHighlight
  rw [if_neg (by simp [hp.length_eq]), if_neg (by simp [hmap.dedup.length_eq])]
  rw [List.all_eq_true]
  intro key _
  rw [beq_iff_eq, hmap.count_eq]

theorem areHighlightsEqual_false_of_diff (P Q : List Highlight) (h h' : Highlight)
    (hne : serializeHighlight h ≠ serializeHighlight h') :
    areHighlightsEqual (P ++ h :: Q) (P ++ h' :: Q) = false := by
  by_contra habs
  rw [Bool.not_eq_false] at habs
  unfold areHighlightsEqual at habs
  rw [if_neg (by simp)] at habs
  by_cases hd : (((P ++ h :: Q).map serializeHighlight).dedup.length
      ≠ ((P ++ h' :: Q).map serializeHighlight).dedup.length)
  · rw [if_pos hd] at habs
    exact absurd habs (by simp)
  · rw [if_neg hd, List.all_eq_true] at habs
    have hmem : serializeHighlight h ∈ (P ++ h :: Q).map serializeHighlight := by simp
    have hcnt := habs (serializeHighlight h) (List.mem_dedup.mpr hmem)
    rw [beq_iff_eq] at hcnt
    have hbeq1 : (serializeHighlight h == serializeHighlight h) = true := by
      rw [beq_iff_eq]
    have hbeq2 : (serializeHighlight h' == serializeHighlight h) = false := by
      rw [beq_eq_false_iff_ne]
      exact fun e => hne e.symm
    rw [List.map_append, List.map_append, List.map_cons, List.map_cons,
      List.count_append, List.count_append, List.count_cons, List.count_cons,
      hbeq1, hbeq2] at hcnt
    simp at hcnt

theorem foldl_hash_lt (l : List Char) :
    ∀ h0, h0 < U32 → List.foldl (fun h c => hashStep h c.toNat) h0 l < U32 := by
  induction l with
  | nil => intro h0 hh; simpa using hh
  | cons c cs ih =>
    intro h0 hh
    simp only [List.foldl_cons]
    exact ih _ (Nat.mod_lt _ (by norm_num [U32]))

theorem hashString32_lt (s : String) : hashString32 s < U32 :=
  foldl_hash_lt s.data 2166136261 (by norm_num [U32])

theorem foldl_addmod (g : Nat → Nat) (l : List Nat) :
    ∀ s, List.foldl (fun m h => (m + g h) % U32) (s % U32) l = (s + (l.map g).sum) % U32 := by
  induction l with
  | nil => intro s; simp
  | cons h t ih =>
    intro s
    simp only [List.foldl_cons, List.map_cons, List.sum_cons]
    have h1 : (s % U32 + g h) % U32 = (s + g h) % U32 := by
      simp only [U32]
      omega
    rw [h1, ih (s + g h), Nat.add_assoc]

theorem sum32_eq (l : List Nat) : sum32 l = l.sum % U32 := by
  have := foldl_addmod id l 0
  simpa [sum32, List.map_id] using this

theorem mix32_eq (l : List Nat) : mix32 l = (l.map (fun h => h * 2654435761 % U32)).sum % U32 := by
  have := foldl_addmod (fun h => h * 2654435761 % U32) l 0
  simpa [mix32] using this

theorem xor32_perm (l l' : List Nat) (hp : l.Perm l') : xor32 l = xor32 l' := by
  unfold xor32
  haveI : RightCommutative (fun (x h : Nat) => x ^^^ h) :=
    ⟨fun b a₁ a₂ => by
      show b ^^^ a₁ ^^^ a₂ = b ^^^ a₂ ^^^ a₁
      rw [Nat.xor_assoc, Nat.xor_assoc, Nat.xor_comm a₁ a₂]⟩
  exact hp.foldl_eq 0

theorem getHighlightsSignature_some (hs : List Highlight) :
    getHighlightsSignature (some hs)
      = decStr hs.length
        ++ ":" ++ hexStr (sum32 (hs.map (fun h => hashString32 (serializeHighlight h))))
        ++ ":" ++ hexStr (xor32 (hs.map (fun h => hashString32 (serializeHighlight h))))
        ++ ":" ++ hexStr (mix32 (hs.map (fun h => hashString32 (serializeHighlight h)))) := rfl

theorem getHighlightsSignature_perm (A B : List Highlight) (hp : A.Perm B) :
    getHighlightsSignature (some A) = getHighlightsSignature (some B) := by
  have hmap := hp.map (fun h => hashString32 (serializeHighlight h))
  rw [getHighlightsSignature_some, getHighlightsSignature_some]
  rw [hp.length_eq, sum32_eq, sum32_eq, hmap.sum_eq,
    xor32_perm _ _ hmap, mix32_eq, mix32_eq, (hmap.map _).sum_eq]

theorem getSyncStateFingerprint_eq (s : SyncState) :
    getSyncStateFingerprint s
      = s.bookId ++ "|" ++ (match s.revision with | some r => r | none => "none")
        ++ "|" ++ (match s.progress with | some p => toFixed6 (clampProgress p) | none => "none")
        ++ "|" ++ getHighlightsSignature s.highlights
        ++ "|" ++ (if s.forceApply then "1" else "0") := rfl

theorem getSyncStateFingerprint_perm (bookId : String) (progress : Option JSNum)
    (revision : Option String) (forceApply : Bool) (A B : List Highlight) (hp : A.Perm B) :
    getSyncStateFingerprint ⟨bookId, progress, some A, revision, forceApply⟩
      = getSyncStateFingerprint ⟨bookId, progress, some B, revision, forceApply⟩ := by
  rw [getSyncStateFingerprint_eq, getSyncStateFingerprint_eq]
  have hsig := getHighlightsSignature_perm A B hp
  simp only at hsig ⊢
  rw [hsig]

theorem append_sep_inj (sep : Char) (a : List Char) :
    ∀ b x y, sep ∉ a → sep ∉ b → a ++ sep :: x = b ++ sep :: y → a = b ∧ x = y := by
  induction a with
  | nil =>
    intro b x y _ hb h
    cases b with
    | nil => simpa using h
    | cons d bs =>
      exfalso
      rw [List.nil_append, List.cons_append] at h
      have : sep = d := (List.cons.inj h).1
      exact hb (this ▸ List.mem_cons_self d bs)
  | cons c as ih =>
    intro b x y ha hb h
    cases b with
    | nil =>
      exfalso
      rw [List.nil_append, List.cons_append] at h
      have : c = sep := (List.cons.inj h).1
      exact ha (this ▸ List.mem_cons_self c as)
    | cons d bs =>
      rw [List.cons_append, List.cons_append] at h
      have hcd := (List.cons.inj h).1
      have hrest := ih bs x y (fun hm => ha (List.mem_cons_of_mem _ hm))
        (fun hm => hb (List.mem_cons_of_mem _ hm)) (List.cons.inj h).2
      exact ⟨by rw [hcd, hrest.1], hrest.2⟩

theorem renderBase_sep_not_mem (b : Nat) (hb2 : 2 ≤ b) (hb16 : b ≤ 16) (n : Nat)
    (sep : Char) (hsep : sep ∉ hexChars) : sep ∉ (renderBase b n).data := by
  intro hmem
  exact hsep (renderBase_chars b hb2 hb16 n sep hmem)

theorem signature_chars (hs : List Highlight) :
    ∀ c ∈ (getHighlightsSignature (some hs)).data, c ∈ ':' :: hexChars := by
  intro c hc
  rw [getHighlightsSignature_some] at hc
  have hcolon : (":" : String).data = [':'] := rfl
  simp only [String.data_append, hcolon, List.append_assoc, List.singleton_append,
    List.cons_append, List.nil_append, List.mem_append, List.mem_cons] at hc
  rcases hc with h | h | h | h | h | h | h
  · exact List.mem_cons_of_mem _ (renderBase_chars 10 (by norm_num) (by norm_num) _ c h)
  · rw [h]; exact List.mem_cons_self _ _
  · exact List.mem_cons_of_mem _ (renderBase_chars 16 (by norm_num) (by norm_num) _ c h)
  · rw [h]; exact List.mem_cons_self _ _
  · exact List.mem_cons_of_mem _ (renderBase_chars 16 (by norm_num) (by norm_num) _ c h)
  · rw [h]; exact List.mem_cons_self _ _
  · exact List.mem_cons_of_mem _ (renderBase_chars 16 (by norm_num) (by norm_num) _ c h)

theorem getHighlightsSignature_ne (A B : List Highlight) (hlen : A.length = B.length)
    (hsum : sum32 (A.map (fun h => hashString32 (serializeHighlight h)))
      ≠ sum32 (B.map (fun h => hashString32 (serializeHighlight h)))) :
    getHighlightsSignature (some A) ≠ getHighlightsSignature (some B) := by
  intro heq
  rw [getHighlightsSignature_some, getHighlightsSignature_some, hlen] at heq
  have hdata := congrArg String.data heq
  have hcolon : (":" : String).data = [':'] := rfl
  simp only [String.data_append, hcolon, List.append_assoc, List.singleton_append,
    List.cons_append, List.nil_append] at hdata
  have h1 := (List.cons.inj (List.append_cancel_left hdata)).2
  have hnocolon : (':' : Char) ∉ hexChars := by decide
  have h2 := append_sep_inj ':' _ _ _ _
    (renderBase_sep_not_mem 16 (by norm_num) (by norm_num) _ ':' hnocolon)
    (renderBase_sep_not_mem 16 (by norm_num) (by norm_num) _ ':' hnocolon) h1
  exact hsum (renderBase_inj 16 (by norm_num) (by norm_num) _ _ (String.ext h2.1))

theorem sum32_ne_of_single (P Q : List Nat) (a b : Nat) (ha : a < U32) (hb : b < U32)
    (hab : a ≠ b) : sum32 (P ++ a :: Q) ≠ sum32 (P ++ b :: Q) := by
  rw [sum32_eq, sum32_eq]
  rw [List.sum_append, List.sum_append, List.sum_cons, List.sum_cons]
  intro h
  apply hab
  simp only [U32] at h ha hb
  omega

theorem getSyncStateFingerprint_ne (bookId : String) (progress : Option JSNum)
    (revision : Option String) (forceApply : Bool) (A B : List Highlight)
    (hsig : getHighlightsSignature (some A) ≠ getHighlightsSignature (some B)) :
    getSyncStateFingerprint ⟨bookId, progress, some A, revision, forceApply⟩
      ≠ getSyncStateFingerprint ⟨bookId, progress, some B, revision, forceApply⟩ := by
  intro heq
  rw [getSyncStateFingerprint_eq, getSyncStateFingerprint_eq] at heq
  have hdata := congrArg String.data heq
  have hpipe : ("|" : String).data = ['|'] := rfl
  simp only [String.data_append, hpipe, List.append_assoc, List.singleton_append,
    List.cons_append, List.nil_append] at hdata
  have h1 := (List.cons.inj (List.append_cancel_left hdata)).2
  have h2 := (List.cons.inj (List.append_cancel_left h1)).2
  have h3 := (List.cons.inj (List.append_cancel_left h2)).2
  have hpipeNotMem : ∀ hs : List Highlight,
      ('|' : Char) ∉ (getHighlightsSignature (some hs)).data := by
    intro hs hmem
    have := signature_chars hs '|' hmem
    revert this
    decide
  have h4 := append_sep_inj '|' _ _ _ _ (hpipeNotMem A) (hpipeNotMem B) h3
  exact hsig (String.ext h4.1)

/-- C3 (amended): the highlight-set comparison and the sync fingerprint are
order-independent — permuted highlight lists compare equal and produce the
same fingerprint — and changing any single field of any one highlight makes
the comparison fail; the fingerprints also differ for such a change provided
the 32-bit FNV-1a hashes of the two serialized highlights differ (the text
change must also not coincide under the undefined-to-empty normalization).
A hash collision can make two single-field-different sets share a
fingerprint; see the counterexample. -/
theorem C3_highlight_order_and_field_sensitivity :
    (∀ A B : List Highlight, A.Perm B → areHighlightsEqual A B = true)
    ∧ (∀ (bookId : String) (progress : Option JSNum) (revision : Option String)
        (forceApply : Bool) (A B : List Highlight), A.Perm B →
        getSyncStateFingerprint ⟨bookId, progress, some A, revision, forceApply⟩
          = getSyncStateFingerprint ⟨bookId, progress, some B, revision, forceApply⟩)
    ∧ (∀ (P Q : List Highlight) (h h' : Highlight), SingleFieldDiff h h' →
        areHighlightsEqual (P ++ h :: Q) (P ++ h' :: Q) = false)
    ∧ (∀ (bookId : String) (progress : Option JSNum) (revision : Option String)
        (forceApply : Bool) (P Q : List Highlight) (h h' : Highlight),
        SingleFieldDiff h h' →
        hashString32 (serializeHighlight h) ≠ hashString32 (serializeHighlight h') →
        getSyncStateFingerprint ⟨bookId, progress, some (P ++ h :: Q), revision, forceApply⟩
          ≠ getSyncStateFingerprint ⟨bookId, progress, some (P ++ h' :: Q), revision,
              forceApply⟩) := by
  refine ⟨fun A B hp => areHighlightsEqual_of_perm A B hp,
    fun bookId progress revision forceApply A B hp =>
      getSyncStateFingerprint_perm bookId progress revision forceApply A B hp,
    fun P Q h h' hdiff =>
      areHighlightsEqual_false_of_diff P Q h h' (serializeHighlight_ne h h' hdiff),
    ?_⟩
  intro bookId progress revision forceApply P Q h h' _ hhash
  apply getSyncStateFingerprint_ne
  apply getHighlightsSignature_ne
  · simp
  · rw [List.map_append, List.map_append, List.map_cons, List.map_cons]
    exact sum32_ne_of_single _ _ _ _ (hashString32_lt _) (hashString32_lt _) hhash

/-- Witness for C3 at concrete highlights: a two-element swap compares equal
with equal fingerprints, and a single color change compares unequal with
distinct fingerprints. -/
theorem C3_highlight_order_and_field_sensitivity_witness :
    areHighlightsEqual [⟨"h1", "c1", 0, 1, .yellow, some "a"⟩, ⟨"h2", "c1", 2, 3, .blue, some "b"⟩]
        [⟨"h2", "c1", 2, 3, .blue, some "b"⟩, ⟨"h1", "c1", 0, 1, .yellow, some "a"⟩] = true
    ∧ getSyncStateFingerprint ⟨"b", none,
          some [⟨"h1", "c1", 0, 1, .yellow, some "a"⟩, ⟨"h2", "c1", 2, 3, .blue, some "b"⟩],
          none, false⟩
        = getSyncStateFingerprint ⟨"b", none,
          some [⟨"h2", "c1", 2, 3, .blue, some "b"⟩, ⟨"h1", "c1", 0, 1, .yellow, some "a"⟩],
          none, false⟩
    ∧ areHighlightsEqual [⟨"h1", "c1", 0, 1, .yellow, some "a"⟩]
        [⟨"h1", "c1", 0, 1, .red, some "a"⟩] = false
    ∧ getSyncStateFingerprint ⟨"b", none, some [⟨"h1", "c1", 0, 1, .yellow, some "a"⟩],
          none, false⟩
        ≠ getSyncStateFingerprint ⟨"b", none, some [⟨"h1", "c1", 0, 1, .red, some "a"⟩],
          none, false⟩ := by
  refine ⟨?_, ?_, ?_, ?_⟩
  · exact C3_highlight_order_and_field_sensitivity.1 _ _
      (List.Perm.swap (⟨"h2", "c1", 2, 3, .blue, some "b"⟩ : Highlight)
        (⟨"h1", "c1", 0, 1, .yellow, some "a"⟩ : Highlight) [])
  · exact C3_highlight_order_and_field_sensitivity.2.1 "b" none none false _ _
      (List.Perm.swap (⟨"h2", "c1", 2, 3, .blue, some "b"⟩ : Highlight)
        (⟨"h1", "c1", 0, 1, .yellow, some "a"⟩ : Highlight) [])
  · exact C3_highlight_order_and_field_sensitivity.2.2.1 [] [] _ _ (by
      unfold SingleFieldDiff
      refine Or.inr (Or.inr (Or.inr (Or.inr (Or.inl ?_))))
      refine ⟨rfl, rfl, rfl, rfl, by decide, rfl⟩)
  · exact C3_highlight_order_and_field_sensitivity.2.2.2 "b" none none false [] [] _ _ (by
      unfold SingleFieldDiff
      refine Or.inr (Or.inr (Or.inr (Or.inr (Or.inl ?_))))
      refine ⟨rfl, rfl, rfl, rfl, by decide, rfl⟩) (by decide)

/-- C3 counterexample: the two highlights differ only in the text field, the
order-independent comparison correctly reports them unequal, yet their sync
states share one fingerprint because the serialized strings collide under the
32-bit FNV-1a hash — so a single-field change does not always change the
fingerprint, refuting the claim as stated. -/
theorem C3_counterexample :
    areHighlightsEqual [⟨"hid", "chap", 0, 1, .yellow, some "opsevu"⟩]
        [⟨"hid", "chap", 0, 1, .yellow, some "wwhvbt"⟩] = false
    ∧ getSyncStateFingerprint ⟨"book-1", none,
          some [⟨"hid", "chap", 0, 1, .yellow, some "opsevu"⟩], none, false⟩
        = getSyncStateFingerprint ⟨"book-1", none,
          some [⟨"hid", "chap", 0, 1, .yellow, some "wwhvbt"⟩], none, false⟩ := by
  constructor
  · decide
  · decide

/-! ### Sync ingestion lemmas for C1 -/

theorem clampProgress_idem (x : JSNum) :
    clampProgress (.finite (clampProgress x)) = clampProgress x := by
  cases x with
  | finite q =>
    simp only [clampProgress, jsMax, jsMin]
    split_ifs <;> first | rfl | linarith
  | nan => rfl
  | posInf => rfl
  | negInf => rfl

theorem handleProgressChange_suppressed (st : ReaderState) (p : ℚ) (mid : String) (now : Nat)
    (hs : 0 < st.suppressSyncEmission) :
    (handleProgressChange st p mid now).pendingEvents = st.pendingEvents
    ∧ (handleProgressChange st p mid now).progress = clampProgress (.finite p)
    ∧ (handleProgressChange st p mid now).highlights = st.highlights
    ∧ (handleProgressChange st p mid now).processed = st.processed
    ∧ (handleProgressChange st p mid now).suppressSyncEmission = st.suppressSyncEmission
    ∧ (handleProgressChange st p mid now).lastConflictFingerprint
        = st.lastConflictFingerprint := by
  unfold handleProgressChange
  by_cases hobs : st.hasObservedProgress = true
  · simp [hobs, hs]
  · simp [hobs]

theorem applySyncStateToReader_applied (st : ReaderState) (next : SyncState) (mid : String)
    (now : Nat) (hb : st.bookId ≠ "") (hm : next.bookId = st.bookId)
    (hr : st.readerReady = true) :
    (applySyncStateToReader st next mid now).2 = .applied
    ∧ (applySyncStateToReader st next mid now).1.pendingEvents = st.pendingEvents
    ∧ (applySyncStateToReader st next mid now).1.processed = st.processed
    ∧ (applySyncStateToReader st next mid now).1.lastConflictFingerprint
        = st.lastConflictFingerprint
    ∧ (∀ p, next.progress = some p →
        (applySyncStateToReader st next mid now).1.progress = clampProgress p)
    ∧ (next.progress = none →
        (applySyncStateToReader st next mid now).1.progress = st.progress)
    ∧ (∀ hs, next.highlights = some hs →
        (applySyncStateToReader st next mid now).1.highlights = hs)
    ∧ (next.highlights = none →
        (applySyncStateToReader st next mid now).1.highlights = st.highlights) := by
  unfold applySyncStateToReader
  rw [if_neg (by simp [hb, hm]), if_neg (by simp [hr])]
  by_cases hobs : st.hasObservedProgress = true <;>
    cases hp : next.progress <;> cases hh : next.highlights <;>
      refine ⟨rfl, ?_, ?_, ?_, ?_, ?_, ?_, ?_⟩ <;>
        simp [handleProgressChange, hobs, cloneHighlights, clampProgress_idem, hp, hh]

/-- C1 (amended): remote sync-state ingestion is idempotent under re-delivery
of an already-processed fingerprint (the state is untouched and no conflict
fires); on an unforced conflict nothing is applied — progress, highlight set
and outbox are unchanged — and the conflict callback fires exactly when the
fingerprint differs from the most recently surfaced conflict fingerprint
(so at most once per consecutive re-delivery, though the same fingerprint can
fire again after a different conflict intervenes), which is then recorded;
otherwise the state is applied under the re-entrancy guard — progress
clamped, highlight set replaced, no outgoing sync event enqueued — and the
fingerprint is marked processed. -/
theorem C1_processExternalSyncState (st : ReaderState) (next : SyncState) (mid : String)
    (now : Nat) :
    (getSyncStateFingerprint next ∈ st.processed →
      processExternalSyncState st next mid now = (st, []))
    ∧ (st.bookId ≠ "" → next.bookId = st.bookId → st.isLoading = false →
      getSyncStateFingerprint next ∉ st.processed →
      conflictEntities ⟨st.bookId, clampProgress (.finite st.progress), st.highlights⟩ next
        ≠ [] →
      next.forceApply = false →
      (processExternalSyncState st next mid now).1.progress = st.progress
      ∧ (processExternalSyncState st next mid now).1.highlights = st.highlights
      ∧ (processExternalSyncState st next mid now).1.pendingEvents = st.pendingEvents
      ∧ ((processExternalSyncState st next mid now).2 ≠ []
          ↔ st.lastConflictFingerprint ≠ getSyncStateFingerprint next)
      ∧ (processExternalSyncState st next mid now).2.length ≤ 1
      ∧ (processExternalSyncState st next mid now).1.lastConflictFingerprint
          = getSyncStateFingerprint next)
    ∧ (st.bookId ≠ "" → next.bookId = st.bookId → st.isLoading = false →
      st.readerReady = true →
      getSyncStateFingerprint next ∉ st.processed →
      (conflictEntities ⟨st.bookId, clampProgress (.finite st.progress), st.highlights⟩ next
          = [] ∨ next.forceApply = true) →
      (processExternalSyncState st next mid now).1.pendingEvents = st.pendingEvents
      ∧ (∀ p, next.progress = some p →
          (processExternalSyncState st next mid now).1.progress = clampProgress p)
      ∧ (next.progress = none →
          (processExternalSyncState st next mid now).1.progress = st.progress)
      ∧ (∀ hs, next.highlights = some hs →
          (processExternalSyncState st next mid now).1.highlights = hs)
      ∧ (next.highlights = none →
          (processExternalSyncState st next mid now).1.highlights = st.highlights)
      ∧ getSyncStateFingerprint next ∈ (processExternalSyncState st next mid now).1.processed
      ∧ (processExternalSyncState st next mid now).2 = []) := by
  refine ⟨?_, ?_, ?_⟩
  · intro hmem
    simp only [processExternalSyncState]
    by_cases hg : (st.bookId = "" ∨ next.bookId ≠ st.bookId ∨ st.isLoading = true)
    · rw [if_pos hg]
    · rw [if_neg hg, if_pos hmem]
  · intro hb hm hload hmem hent hforce
    have hres : processExternalSyncState st next mid now
        = ({ st with lastConflictFingerprint := getSyncStateFingerprint next },
          if st.lastConflictFingerprint ≠ getSyncStateFingerprint next then
            [⟨st.bookId,
              conflictEntities ⟨st.bookId, clampProgress (.finite st.progress), st.highlights⟩
                next, now,
              ⟨st.bookId, clampProgress (.finite st.progress), st.highlights⟩,
              ⟨st.bookId,
                match next.progress with
                | some p => clampProgress p
                | none => clampProgress (.finite st.progress),
                match next.highlights with
                | some hs => hs
                | none => st.highlights⟩, next⟩]
          else []) := by
      simp only [processExternalSyncState, getSyncSnapshot, cloneHighlights]
      rw [if_neg (by simp [hb, hm, hload]), if_neg hmem, if_neg hb]
      dsimp only
      have hcondPos : conflictEntities
          ⟨st.bookId, clampProgress (.finite st.progress), st.highlights⟩ next ≠ []
          ∧ ¬ next.forceApply = true := ⟨hent, by simp [hforce]⟩
      rw [if_pos hcondPos]
    rw [hres]
    refine ⟨rfl, rfl, rfl, ?_, ?_, rfl⟩
    · by_cases hlast : st.lastConflictFingerprint ≠ getSyncStateFingerprint next
      · simp [hlast]
      · simp [hlast]
    · by_cases hlast : st.lastConflictFingerprint ≠ getSyncStateFingerprint next
      · simp [hlast]
      · simp [hlast]
  · intro hb hm hload hr hmem hnoc
    have happ := applySyncStateToReader_applied st next mid now hb hm hr
    have hcond : ¬ (conflictEntities
        ⟨st.bookId, clampProgress (.finite st.progress), st.highlights⟩ next ≠ []
        ∧ ¬ next.forceApply = true) := by
      rcases hnoc with h | h
      · intro hc; exact hc.1 h
      · intro hc; exact hc.2 (by simp [h])
    have hres : processExternalSyncState st next mid now
        = ({ (applySyncStateToReader st next mid now).1 with
            processed :=
              if getSyncStateFingerprint next
                  ∈ (applySyncStateToReader st next mid now).1.processed then
                (applySyncStateToReader st next mid now).1.processed
              else (applySyncStateToReader st next mid now).1.processed
                ++ [getSyncStateFingerprint next],
            lastConflictFingerprint := "" }, []) := by
      simp only [processExternalSyncState, getSyncSnapshot, cloneHighlights]
      rw [if_neg (by simp [hb, hm, hload]), if_neg hmem, if_neg hb]
      dsimp only
      rw [if_neg hcond]
      rcases hsplit : applySyncStateToReader st next mid now with ⟨st1, res⟩
      have hresApplied : res = .applied := by
        have := happ.1
        rw [hsplit] at this
        exact this
      rw [hresApplied]
      rfl
    rw [hres]
    refine ⟨?_, ?_, ?_, ?_, ?_, ?_, rfl⟩
    · exact happ.2.1
    · exact fun p hp => happ.2.2.2.2.1 p hp
    · exact fun hp => happ.2.2.2.2.2.1 hp
    · exact fun hs hh => happ.2.2.2.2.2.2.1 hs hh
    · exact fun hh => happ.2.2.2.2.2.2.2 hh
    · show getSyncStateFingerprint next ∈ _
      by_cases hin : getSyncStateFingerprint next
          ∈ (applySyncStateToReader st next mid now).1.processed
      · simp [hin]
      · simp [hin]

/-- Witness for C1: concrete runs of the three ingestion regimes — an
already-processed fingerprint leaves the state untouched, an unforced
highlight conflict applies nothing, and a forced state is applied with its
fingerprint marked processed and no outgoing event. -/
theorem C1_processExternalSyncState_witness :
    processExternalSyncState
        ⟨"b", false, true, 0, true, none, [⟨"h0", "c", 0, 1, .yellow, none⟩], [],
          [getSyncStateFingerprint ⟨"b", none, some [⟨"hA", "c", 2, 3, .blue, none⟩], none,
            false⟩], "", none, 0⟩
        ⟨"b", none, some [⟨"hA", "c", 2, 3, .blue, none⟩], none, false⟩ "m" 0
      = (⟨"b", false, true, 0, true, none, [⟨"h0", "c", 0, 1, .yellow, none⟩], [],
          [getSyncStateFingerprint ⟨"b", none, some [⟨"hA", "c", 2, 3, .blue, none⟩], none,
            false⟩], "", none, 0⟩, [])
    ∧ (processExternalSyncState
        ⟨"b", false, true, 0, true, none, [⟨"h0", "c", 0, 1, .yellow, none⟩], [], [], "",
          none, 0⟩
        ⟨"b", none, some [⟨"hA", "c", 2, 3, .blue, none⟩], none, false⟩ "m" 0).1.highlights
      = [⟨"h0", "c", 0, 1, .yellow, none⟩]
    ∧ (processExternalSyncState
        ⟨"b", false, true, 0, true, none, [⟨"h0", "c", 0, 1, .yellow, none⟩], [], [], "",
          none, 0⟩
        ⟨"b", none, some [⟨"hA", "c", 2, 3, .blue, none⟩], none, false⟩ "m" 0).1.pendingEvents
      = []
    ∧ (processExternalSyncState
        ⟨"b", false, true, 0, true, none, [⟨"h0", "c", 0, 1, .yellow, none⟩], [], [], "",
          none, 0⟩
        ⟨"b", none, some [⟨"hA", "c", 2, 3, .blue, none⟩], none, true⟩ "m" 0).1.highlights
      = [⟨"hA", "c", 2, 3, .blue, none⟩]
    ∧ getSyncStateFingerprint ⟨"b", none, some [⟨"hA", "c", 2, 3, .blue, none⟩], none, true⟩
        ∈ (processExternalSyncState
          ⟨"b", false, true, 0, true, none, [⟨"h0", "c", 0, 1, .yellow, none⟩], [], [], "",
            none, 0⟩
          ⟨"b", none, some [⟨"hA", "c", 2, 3, .blue, none⟩], none, true⟩ "m" 0).1.processed
    ∧ (processExternalSyncState
        ⟨"b", false, true, 0, true, none, [⟨"h0", "c", 0, 1, .yellow, none⟩], [], [], "",
          none, 0⟩
        ⟨"b", none, some [⟨"hA", "c", 2, 3, .blue, none⟩], none, true⟩ "m" 0).2 = [] := by
  refine ⟨?_, ?_, ?_, ?_, ?_, ?_⟩
  · exact (C1_processExternalSyncState _ _ "m" 0).1 (by simp)
  · exact ((C1_processExternalSyncState _ _ "m" 0).2.1 (by decide) rfl rfl (by simp)
      (by decide) rfl).2.1
  · exact ((C1_processExternalSyncState _ _ "m" 0).2.1 (by decide) rfl rfl (by simp)
      (by decide) rfl).2.2.1
  · exact ((C1_processExternalSyncState _ _ "m" 0).2.2 (by decide) rfl rfl rfl (by simp)
      (Or.inr rfl)).2.2.2.1 _ rfl
  · exact ((C1_processExternalSyncState _ _ "m" 0).2.2 (by decide) rfl rfl rfl (by simp)
      (Or.inr rfl)).2.2.2.2.2.1
  · exact ((C1_processExternalSyncState _ _ "m" 0).2.2 (by decide) rfl rfl rfl (by simp)
      (Or.inr rfl)).2.2.2.2.2.2

/-- C1 counterexample: delivering conflicting states with fingerprints A, B, A
fires the conflict callback three times — twice for fingerprint A — because
the code only remembers the single most recent conflict fingerprint, refuting
the claim that the callback fires at most once per fingerprint. -/
theorem C1_counterexample :
    ((processMany
        ⟨"b", false, true, 0, true, none, [⟨"h0", "c", 0, 1, .yellow, none⟩], [], [], "",
          none, 0⟩
        [⟨"b", none, some [⟨"hA", "c", 2, 3, .blue, none⟩], none, false⟩,
          ⟨"b", none, some [⟨"hB", "c", 4, 5, .red, none⟩], none, false⟩,
          ⟨"b", none, some [⟨"hA", "c", 2, 3, .blue, none⟩], none, false⟩] "m" 0).2.map
        (fun c => getSyncStateFingerprint c.proposedSyncState)).count
      (getSyncStateFingerprint ⟨"b", none, some [⟨"hA", "c", 2, 3, .blue, none⟩], none, false⟩)
    = 2 := by
  decide
